import Mathlib

/-!
# DHT22 edge-capture driver (`Drivers/Custom/dht22_edges.c`)

A shallow embedding of the capture session (the module's `static volatile`
variables, gathered in one record) and of the frame decoder, followed by the
properties proved about them.

Conventions of the embedding:

* machine integers are `Nat`/`Int`; every conversion to a fixed width that the
  C code performs is written out (`u16`, `u32`, `i16`, `% 256`);
* the two edge arrays are lists; an array read is `xs[i]?`, so a read outside
  the array makes the enclosing function return `none`;
* loops carry a fuel argument and return `none` when it runs out;
* values delivered by the HAL (tick, counter, captured value, pin level, timer
  instance and channel) are arguments of the operation that reads them;
* the two `float` results are kept as the integer that the C code multiplies by
  `0.1f` (tenths of a degree, tenths of a percent).
-/

namespace DHT22

/-! ## Constants and types -/

/-- Capacity of the edge buffer: `#define MAX_EDGES 90`. -/
def MAX_EDGES : Nat := 90

/-- Silence threshold in counter units: `#define SILENCE_US 500`. -/
def SILENCE_US : Nat := 500

/-- Overall timeout in milliseconds: `#define TRANS_TIMEOUT_MS 50`. -/
def TRANS_TIMEOUT_MS : Nat := 50

/-- Session state: `typedef enum { S_IDLE=0, S_CAPTURING=1, S_READY=2 } state_t;` -/
inductive state_t where
  | S_IDLE
  | S_CAPTURING
  | S_READY
  deriving DecidableEq, Repr

/-- Status codes: `DHT22_Status` of `dht22_edges.h`. -/
inductive DHT22_Status where
  | DHT22_OK
  | DHT22_BUSY
  | DHT22_ERROR_TIMEOUT
  | DHT22_ERROR_CHECKSUM
  | DHT22_ERROR_FRAME
  deriving DecidableEq, Repr

open state_t DHT22_Status

/-- The module's file-scope variables (lines 23-31 of `dht22_edges.c`). -/
structure Session where
  st : state_t
  edge_t : List Nat
  edge_level : List Nat
  edgeCount : Nat
  lastEdgeCounter : Nat
  start_ms : Nat
  haveNewEdge : Nat
  deriving DecidableEq, Repr

/-- The static initialisers: `st = S_IDLE`, zeroed arrays, zero counters. -/
def Session.initial : Session :=
  { st := S_IDLE
    edge_t := List.replicate MAX_EDGES 0
    edge_level := List.replicate MAX_EDGES 0
    edgeCount := 0
    lastEdgeCounter := 0
    start_ms := 0
    haveNewEdge := 0 }

/-- The C types of the buffer: both arrays have `MAX_EDGES` entries and the
count does not exceed them. -/
def Session.WellFormed (s : Session) : Prop :=
  s.edge_t.length = MAX_EDGES ∧ s.edge_level.length = MAX_EDGES ∧ s.edgeCount ≤ MAX_EDGES

instance (s : Session) : Decidable s.WellFormed := by
  unfold Session.WellFormed; infer_instance

/-! ## Fixed-width conversions -/

/-- Conversion to `uint16_t`. -/
def u16 (x : Int) : Nat := (x % 65536).toNat

/-- Conversion to `uint32_t`. -/
def u32 (x : Int) : Nat := (x % 4294967296).toNat

/-- Conversion to `int16_t` (two's complement). -/
def i16 (x : Int) : Int := (x + 32768) % 65536 - 32768

/-! ## Capture session -/

/-- Function `DHT22_Edges_Init`: only prepares the delay unit; the session is untouched. -/
def DHT22_Edges_Init (s : Session) : Session := s

/-- Function `DHT22_Edges_Start`; `tick` is the value returned by `HAL_GetTick()`. -/
def DHT22_Edges_Start (s : Session) (tick : Nat) : Session :=
  if s.st ≠ S_IDLE then s
  else
    { st := S_CAPTURING
      edge_t := List.replicate MAX_EDGES 0
      edge_level := List.replicate MAX_EDGES 0
      edgeCount := 0
      lastEdgeCounter := s.lastEdgeCounter
      start_ms := u32 tick
      haveNewEdge := 0 }

/-- Function `DHT22_Edges_Service`; `tick` is `HAL_GetTick()` and `counter` is
`__HAL_TIM_GET_COUNTER(&htim2)`. -/
def DHT22_Edges_Service (s : Session) (tick counter : Nat) : Session :=
  if s.st ≠ S_CAPTURING then s
  else if u32 ((tick : Int) - (s.start_ms : Int)) > TRANS_TIMEOUT_MS then
    { s with st := S_IDLE }
  else if s.edgeCount ≥ MAX_EDGES then
    { s with st := S_READY }
  else if s.haveNewEdge ≠ 0 then
    let now := u16 counter
    let silence := u16 ((now : Int) - (s.lastEdgeCounter : Int))
    if silence > SILENCE_US then { s with st := S_READY } else s
  else s

/-- Function `DHT22_Edges_TIM_IC_Callback`; `isTIM2` is `htim->Instance == TIM2`,
`isChannel2` is `htim->Channel == HAL_TIM_ACTIVE_CHANNEL_2`, `captured` is the
value of `HAL_TIM_ReadCapturedValue` and `pinSet` is
`HAL_GPIO_ReadPin(..) == GPIO_PIN_SET`. -/
def DHT22_Edges_TIM_IC_Callback (s : Session) (isTIM2 isChannel2 : Bool)
    (captured : Nat) (pinSet : Bool) : Session :=
  if s.st ≠ S_CAPTURING then s
  else if isTIM2 = false then s
  else if isChannel2 = false then s
  else
    let cap := u16 captured
    let s1 : Session :=
      if s.edgeCount < MAX_EDGES then
        { s with
          edge_t := s.edge_t.set s.edgeCount cap
          edge_level := s.edge_level.set s.edgeCount (if pinSet then 1 else 0)
          edgeCount := (s.edgeCount + 1) % 256
          lastEdgeCounter := cap
          haveNewEdge := 1 }
      else s
    if s1.edgeCount ≥ MAX_EDGES then { s1 with st := S_READY } else s1

/-! ## Frame decoder -/

/-- The inner loop of `decode_frame`:
`while (j < edgeCount && edge_level[j] != 0) j++;` - the result is the final `j`. -/
def nextFalling (edge_level : List Nat) (edgeCount : Nat) : Nat → Nat → Option Nat
  | 0, _ => none
  | fuel + 1, j =>
    if j < edgeCount then do
      let l ← edge_level[j]?
      if l ≠ 0 then nextFalling edge_level edgeCount fuel (j + 1) else some j
    else some j

/-- The outer loop of `decode_frame` (lines 163-183); `hi` holds the entries of
the local array `hi[]` written so far, so `hiCount` is `hi.length`. -/
def pulseLoop (edge_t edge_level : List Nat) (edgeCount : Nat) :
    Nat → Nat → List Nat → Option (List Nat)
  | 0, _, _ => none
  | fuel + 1, i, hi =>
    if (i : Int) < (edgeCount : Int) - 1 ∧ hi.length < 50 then do
      let l ← edge_level[i]?
      if l = 1 then
        let t_r ← edge_t[i]?
        let j ← nextFalling edge_level edgeCount (edgeCount + 1) (i + 1)
        if j ≥ edgeCount then some hi
        else
          let t_f ← edge_t[j]?
          let high_us := u16 ((t_f : Int) - (t_r : Int))
          pulseLoop edge_t edge_level edgeCount fuel (j + 1) (hi ++ [high_us])
      else pulseLoop edge_t edge_level edgeCount fuel (i + 1) hi
    else some hi

/-- The high-pulse widths that `decode_frame` reconstructs from the buffer. -/
def highPulses (s : Session) : Option (List Nat) :=
  pulseLoop s.edge_t s.edge_level s.edgeCount (s.edgeCount + 1) 0 []

/-- One iteration of the bit loop (lines 193-203) on the frame bytes `d`. -/
def bitStep (hi : List Nat) (d : List Nat) (b : Nat) : Option (List Nat) := do
  let high_us ← hi[b + 1]?
  let bit : Nat := if high_us > 50 then 1 else 0
  let byteIndex := (b / 8) % 256
  let bitPos := (7 - (b % 8)) % 256
  if bit ≠ 0 then
    let old ← d[byteIndex]?
    some (d.set byteIndex ((old ||| (1 <<< bitPos)) % 256))
  else some d

/-- The bit loop `for (int b = 0; b < 40; b++)` starting from `d[5] = {0}`. -/
def decodeBits (hi : List Nat) : Option (List Nat) :=
  (List.range 40).foldlM (bitStep hi) [0, 0, 0, 0, 0]

/-- What `decode_frame` hands back: the status and the contents of `*tC` and
`*rh` after the call, in tenths. -/
structure DecodeResult where
  status : DHT22_Status
  tC : Int
  rh : Int
  deriving DecidableEq, Repr

/-- Lines 205-218 of `decode_frame`: the checksum test on the five frame bytes
and the conversion of bytes 0-3 to the two readings. -/
def checkAndConvert (d0 d1 d2 d3 d4 : Nat) (tC rh : Int) : DecodeResult :=
  let sum := (d0 + d1 + d2 + d3) % 256
  if sum ≠ d4 then ⟨DHT22_ERROR_CHECKSUM, tC, rh⟩
  else
    let rawHum := ((d0 <<< 8) ||| d1) % 65536
    let rawTemp := ((d2 <<< 8) ||| d3) % 65536
    let signedTemp : Int :=
      i16 (if rawTemp &&& 0x8000 ≠ 0 then -(i16 ((rawTemp &&& 0x7FFF : Nat) : Int))
           else i16 (rawTemp : Int))
    ⟨DHT22_OK, signedTemp, (rawHum : Int)⟩

/-- Function `decode_frame`; `tC` and `rh` are the contents of the two output cells
before the call. -/
def decode_frame (s : Session) (tC rh : Int) : Option DecodeResult := do
  let hi ← highPulses s
  if hi.length < 41 then some ⟨DHT22_ERROR_FRAME, tC, rh⟩
  else
    let d ← decodeBits hi
    let d0 ← d[0]?
    let d1 ← d[1]?
    let d2 ← d[2]?
    let d3 ← d[3]?
    let d4 ← d[4]?
    some (checkAndConvert d0 d1 d2 d3 d4 tC rh)

/-- What `DHT22_Edges_Read` hands back: the status, the session after the call
and the contents of `*tC` and `*rh` after the call. -/
structure ReadResult where
  status : DHT22_Status
  session : Session
  tC : Int
  rh : Int
  deriving DecidableEq, Repr

/-- Function `DHT22_Edges_Read`; `tC` and `rh` are the contents of the two output
cells before the call. -/
def DHT22_Edges_Read (s : Session) (tC rh : Int) : Option ReadResult :=
  if s.st = S_CAPTURING then some ⟨DHT22_BUSY, s, tC, rh⟩
  else if s.st = S_IDLE then some ⟨DHT22_ERROR_TIMEOUT, s, tC, rh⟩
  else do
    let r ← decode_frame s tC rh
    some ⟨r.status, { s with st := S_IDLE }, r.tC, r.rh⟩

/-! ## Call sequences -/

/-- One call of the module's interface together with the values the HAL
delivers to it. -/
inductive Call where
  | init
  | start (tick : Nat)
  | service (tick counter : Nat)
  | callback (isTIM2 isChannel2 : Bool) (captured : Nat) (pinSet : Bool)
  | read (tC rh : Int)
  deriving DecidableEq, Repr

/-- The session after one call. -/
def Call.apply (s : Session) : Call → Option Session
  | .init => some (DHT22_Edges_Init s)
  | .start tick => some (DHT22_Edges_Start s tick)
  | .service tick counter => some (DHT22_Edges_Service s tick counter)
  | .callback a b c p => some (DHT22_Edges_TIM_IC_Callback s a b c p)
  | .read tC rh => (DHT22_Edges_Read s tC rh).map (fun r => r.session)

/-- The session after a sequence of calls, oldest first. -/
def runCalls (s : Session) : List Call → Option Session
  | [] => some s
  | c :: cs => (c.apply s).bind (fun s1 => runCalls s1 cs)

/-! ## Auxiliary definitions used in the statements and proofs -/

/-- The width of the `k`-th rising/falling record pair after `lead` leading
records: falling timestamp minus rising timestamp as `uint16_t`. -/
def pairWidth (s : Session) (lead k : Nat) : Nat :=
  u16 (((s.edge_t[lead + 2 * k + 1]?.getD 0 : Nat) : Int) - ((s.edge_t[lead + 2 * k]?.getD 0 : Nat) : Int))

/-- The classification of data pulse `b`: `hi[b + 1] > 50`. -/
def bitAt (hi : List Nat) (b : Nat) : Bool := decide (50 < hi[b + 1]?.getD 0)

/-- The update `d[byteIndex] |= (1U << bitPos)` guarded by `if (bit)`. -/
def orBit (c : Bool) (pos x : Nat) : Nat := if c then (x ||| 1 <<< pos) % 256 else x

/-- The bit-loop iteration `bitStep` written as a total function. -/
def stepT (hi : List Nat) (d : List Nat) (b : Nat) : List Nat :=
  d.set (b / 8) (orBit (bitAt hi b) (7 - b % 8) (d[b / 8]?.getD 0))

/-- The value of a byte whose bits, most significant first, are `c0 .. c7`. -/
def packByte (c0 c1 c2 c3 c4 c5 c6 c7 : Bool) : Nat :=
  128 * c0.toNat + 64 * c1.toNat + 32 * c2.toNat + 16 * c3.toNat + 8 * c4.toNat + 4 * c5.toNat + 2 * c6.toNat + c7.toNat

/-- Byte `k` of the frame as packed from the classifications of data pulses
`8k .. 8k+7`. -/
def byteAt (hi : List Nat) (k : Nat) : Nat :=
  packByte (bitAt hi (8 * k)) (bitAt hi (8 * k + 1)) (bitAt hi (8 * k + 2)) (bitAt hi (8 * k + 3))
    (bitAt hi (8 * k + 4)) (bitAt hi (8 * k + 5)) (bitAt hi (8 * k + 6)) (bitAt hi (8 * k + 7))

/-- The sign-magnitude reading of a 16-bit field, in tenths. -/
def signMagnitude (r : Nat) : Int :=
  if r.testBit 15 then -((r % 0x8000 : Nat) : Int) else (r : Int)

/-- The invariant kept by every call: the buffer is well formed, a capturing
session has room left, and the new-edge flag is set exactly when an edge has
been recorded. -/
def Session.Inv (s : Session) : Prop :=
  s.WellFormed ∧ (s.st = S_CAPTURING → s.edgeCount < MAX_EDGES) ∧
    (s.haveNewEdge ≠ 0 ↔ 0 < s.edgeCount)

/-- The reference list of high-pulse widths of a record sequence, as the
specification words it. Records are `(timestamp, level)` with level `true` for
rising. With first argument `none` the scan looks for the next rising record and
moves on by one at a falling one; with `some t_r` it looks for the first falling
record after the rising record of timestamp `t_r`, emits the difference of the
two timestamps modulo `2^16` and goes on behind that falling record. It stops at
the end of the sequence, also while still looking for a falling record. -/
def referenceWidths : Option Nat → List (Nat × Bool) → List Nat
  | none, [] => []
  | none, (_, false) :: rest => referenceWidths none rest
  | none, (t, true) :: rest => referenceWidths (some t) rest
  | some _, [] => []
  | some t_r, (_, true) :: rest => referenceWidths (some t_r) rest
  | some t_r, (t_f, false) :: rest =>
    u16 ((t_f : Int) - (t_r : Int)) :: referenceWidths none rest

/-- The differences, modulo `2^16`, between each rising record and the record
immediately after it, in arrival order. -/
def adjacentWidths : List (Nat × Bool) → List Nat
  | [] => []
  | [_] => []
  | r1 :: r2 :: rest =>
    (if r1.2 then [u16 ((r2.1 : Int) - (r1.1 : Int))] else []) ++ adjacentWidths (r2 :: rest)

/-- The first `edgeCount` entries of the two edge arrays are the records
`recs`. -/
def Session.Holds (s : Session) (recs : List (Nat × Bool)) : Prop :=
  s.edgeCount = recs.length ∧
  s.edge_t.take s.edgeCount = recs.map (fun r => r.1) ∧
  s.edge_level.take s.edgeCount = recs.map (fun r => if r.2 then 1 else 0)

instance (s : Session) (recs : List (Nat × Bool)) : Decidable (s.Holds recs) := by
  unfold Session.Holds; infer_instance

/-! ## Sample sessions -/

/-- A captured frame: one leading falling edge, an 80 us acknowledgement pulse and
40 data pulses of 28 us or 70 us (each after 50 us low) that encode the bytes
`02 8C 01 04 93`. -/
def sampleFrame : Session :=
  { st := S_READY
    edge_t :=
     [10, 90, 170, 220, 248, 298, 326, 376, 404, 454, 482, 532, 560, 610, 638,
      688, 758, 808, 836, 886, 956, 1006, 1034, 1084, 1112, 1162, 1190, 1240, 1310, 1360,
      1430, 1480, 1508, 1558, 1586, 1636, 1664, 1714, 1742, 1792, 1820, 1870, 1898, 1948, 1976,
      2026, 2054, 2104, 2132, 2182, 2252, 2302, 2330, 2380, 2408, 2458, 2486, 2536, 2564, 2614,
      2642, 2692, 2762, 2812, 2840, 2890, 2918, 2968, 3038, 3088, 3116, 3166, 3194, 3244, 3314,
      3364, 3392, 3442, 3470, 3520, 3590, 3640, 3710, 0, 0, 0, 0, 0, 0, 0]
    edge_level :=
     [0, 1, 0, 1, 0, 1, 0, 1, 0, 1, 0, 1, 0, 1, 0,
      1, 0, 1, 0, 1, 0, 1, 0, 1, 0, 1, 0, 1, 0, 1,
      0, 1, 0, 1, 0, 1, 0, 1, 0, 1, 0, 1, 0, 1, 0,
      1, 0, 1, 0, 1, 0, 1, 0, 1, 0, 1, 0, 1, 0, 1,
      0, 1, 0, 1, 0, 1, 0, 1, 0, 1, 0, 1, 0, 1, 0,
      1, 0, 1, 0, 1, 0, 1, 0, 0, 0, 0, 0, 0, 0, 0]
    edgeCount := 83
    lastEdgeCounter := 3710
    start_ms := 0
    haveNewEdge := 1 }

/-- The session `sampleFrame` with the falling edge of the first data pulse moved
from 248 to 290, so that this pulse lasts 70 us instead of 28 us. -/
def sampleFrameFlipped : Session :=
  { st := S_READY
    edge_t :=
     [10, 90, 170, 220, 290, 298, 326, 376, 404, 454, 482, 532, 560, 610, 638,
      688, 758, 808, 836, 886, 956, 1006, 1034, 1084, 1112, 1162, 1190, 1240, 1310, 1360,
      1430, 1480, 1508, 1558, 1586, 1636, 1664, 1714, 1742, 1792, 1820, 1870, 1898, 1948, 1976,
      2026, 2054, 2104, 2132, 2182, 2252, 2302, 2330, 2380, 2408, 2458, 2486, 2536, 2564, 2614,
      2642, 2692, 2762, 2812, 2840, 2890, 2918, 2968, 3038, 3088, 3116, 3166, 3194, 3244, 3314,
      3364, 3392, 3442, 3470, 3520, 3590, 3640, 3710, 0, 0, 0, 0, 0, 0, 0]
    edge_level :=
     [0, 1, 0, 1, 0, 1, 0, 1, 0, 1, 0, 1, 0, 1, 0,
      1, 0, 1, 0, 1, 0, 1, 0, 1, 0, 1, 0, 1, 0, 1,
      0, 1, 0, 1, 0, 1, 0, 1, 0, 1, 0, 1, 0, 1, 0,
      1, 0, 1, 0, 1, 0, 1, 0, 1, 0, 1, 0, 1, 0, 1,
      0, 1, 0, 1, 0, 1, 0, 1, 0, 1, 0, 1, 0, 1, 0,
      1, 0, 1, 0, 1, 0, 1, 0, 0, 0, 0, 0, 0, 0, 0]
    edgeCount := 83
    lastEdgeCounter := 3710
    start_ms := 0
    haveNewEdge := 1 }

/-- A captured frame like `sampleFrame` that encodes the bytes `02 8C 80 32 40`:
the temperature field is `0x8032`. -/
def sampleFrameNegative : Session :=
  { st := S_READY
    edge_t :=
     [10, 90, 170, 220, 248, 298, 326, 376, 404, 454, 482, 532, 560, 610, 638,
      688, 758, 808, 836, 886, 956, 1006, 1034, 1084, 1112, 1162, 1190, 1240, 1310, 1360,
      1430, 1480, 1508, 1558, 1586, 1636, 1706, 1756, 1784, 1834, 1862, 1912, 1940, 1990, 2018,
      2068, 2096, 2146, 2174, 2224, 2252, 2302, 2330, 2380, 2408, 2458, 2528, 2578, 2648, 2698,
      2726, 2776, 2804, 2854, 2924, 2974, 3002, 3052, 3080, 3130, 3200, 3250, 3278, 3328, 3356,
      3406, 3434, 3484, 3512, 3562, 3590, 3640, 3668, 0, 0, 0, 0, 0, 0, 0]
    edge_level :=
     [0, 1, 0, 1, 0, 1, 0, 1, 0, 1, 0, 1, 0, 1, 0,
      1, 0, 1, 0, 1, 0, 1, 0, 1, 0, 1, 0, 1, 0, 1,
      0, 1, 0, 1, 0, 1, 0, 1, 0, 1, 0, 1, 0, 1, 0,
      1, 0, 1, 0, 1, 0, 1, 0, 1, 0, 1, 0, 1, 0, 1,
      0, 1, 0, 1, 0, 1, 0, 1, 0, 1, 0, 1, 0, 1, 0,
      1, 0, 1, 0, 1, 0, 1, 0, 0, 0, 0, 0, 0, 0, 0]
    edgeCount := 83
    lastEdgeCounter := 3668
    start_ms := 0
    haveNewEdge := 1 }

/-- The first 81 records of `sampleFrame`: the capture ended one data pulse early. -/
def sampleFrameShort : Session :=
  { st := S_READY
    edge_t :=
     [10, 90, 170, 220, 248, 298, 326, 376, 404, 454, 482, 532, 560, 610, 638,
      688, 758, 808, 836, 886, 956, 1006, 1034, 1084, 1112, 1162, 1190, 1240, 1310, 1360,
      1430, 1480, 1508, 1558, 1586, 1636, 1664, 1714, 1742, 1792, 1820, 1870, 1898, 1948, 1976,
      2026, 2054, 2104, 2132, 2182, 2252, 2302, 2330, 2380, 2408, 2458, 2486, 2536, 2564, 2614,
      2642, 2692, 2762, 2812, 2840, 2890, 2918, 2968, 3038, 3088, 3116, 3166, 3194, 3244, 3314,
      3364, 3392, 3442, 3470, 3520, 3590, 0, 0, 0, 0, 0, 0, 0, 0, 0]
    edge_level :=
     [0, 1, 0, 1, 0, 1, 0, 1, 0, 1, 0, 1, 0, 1, 0,
      1, 0, 1, 0, 1, 0, 1, 0, 1, 0, 1, 0, 1, 0, 1,
      0, 1, 0, 1, 0, 1, 0, 1, 0, 1, 0, 1, 0, 1, 0,
      1, 0, 1, 0, 1, 0, 1, 0, 1, 0, 1, 0, 1, 0, 1,
      0, 1, 0, 1, 0, 1, 0, 1, 0, 1, 0, 1, 0, 1, 0,
      1, 0, 1, 0, 1, 0, 0, 0, 0, 0, 0, 0, 0, 0, 0]
    edgeCount := 81
    lastEdgeCounter := 3590
    start_ms := 0
    haveNewEdge := 1 }

/-- A capturing session: started at tick 1000, one rising edge recorded at
counter value 100. -/
def sampleCapturing : Session :=
  DHT22_Edges_TIM_IC_Callback (DHT22_Edges_Start Session.initial 1000) true true 100 true

/-- The 83 records held by `sampleFrame`, as `(timestamp, rising)` pairs. -/
def sampleRecords : List (Nat × Bool) :=
  ((sampleFrame.edge_t.zip sampleFrame.edge_level).take 83).map
    (fun p => (p.1, decide (p.2 = 1)))

/-- A capturing session whose only edge was recorded at counter value 65500,
shortly before the 16-bit counter wraps. -/
def sampleCapturingLate : Session :=
  DHT22_Edges_TIM_IC_Callback (DHT22_Edges_Start Session.initial 1000) true true 65500 true

/-! ## Lemmas and theorems -/

/-! ### The bit loop in closed form -/

theorem getElem?_eq_some_getD (xs : List Nat) (i : Nat) (h : i < xs.length) :
    xs[i]? = some (xs[i]?.getD 0) := by
  rw [List.getElem?_eq_getElem h]; rfl

theorem set_getD_self (d : List Nat) (k : Nat) : d.set k (d[k]?.getD 0) = d := by
  induction d generalizing k with
  | nil => simp
  | cons x xs ih =>
    cases k with
    | zero => simp
    | succ k => simp [ih]

theorem bitStep_eq (hi d : List Nat) (b : Nat) (hb : b < 40) (hhi : 41 ≤ hi.length)
    (hd : d.length = 5) : bitStep hi d b = some (stepT hi d b) := by
  have h1 := getElem?_eq_some_getD hi (b + 1) (by omega)
  have h4 := getElem?_eq_some_getD d (b / 8) (by omega)
  have h2 : b / 8 % 256 = b / 8 := by omega
  have h3 : (7 - b % 8) % 256 = 7 - b % 8 := by omega
  unfold bitStep stepT bitAt orBit
  rw [h1, h2, h3]
  simp only [Option.bind_eq_bind, Option.some_bind, Option.getD_some]
  by_cases hw : 50 < hi[b + 1]?.getD 0
  · rw [h4]; simp [hw]
  · simp [hw, set_getD_self]

theorem foldlM_bitStep (hi : List Nat) (hhi : 41 ≤ hi.length) (l : List Nat) :
    ∀ d : List Nat, (∀ b ∈ l, b < 40) → d.length = 5 →
      l.foldlM (bitStep hi) d = some (l.foldl (stepT hi) d) := by
  induction l with
  | nil => intro d _ _; rfl
  | cons b bs ih =>
    intro d hl hd
    have hb : b < 40 := hl b (List.mem_cons_self _ _)
    rw [List.foldlM_cons, bitStep_eq hi d b hb hhi hd]
    simp only [Option.bind_eq_bind, Option.some_bind, List.foldl_cons]
    apply ih
    · intro x hx; exact hl x (List.mem_cons_of_mem _ hx)
    · simp [stepT, hd]

theorem orBit_chain : ∀ c0 c1 c2 c3 c4 c5 c6 c7 : Bool,
    orBit c7 0 (orBit c6 1 (orBit c5 2 (orBit c4 3 (orBit c3 4 (orBit c2 5 (orBit c1 6
      (orBit c0 7 0))))))) = packByte c0 c1 c2 c3 c4 c5 c6 c7 := by
  decide

theorem decodeBits_eq (hi : List Nat) (hhi : 41 ≤ hi.length) :
    decodeBits hi = some [byteAt hi 0, byteAt hi 1, byteAt hi 2, byteAt hi 3, byteAt hi 4] := by
  unfold decodeBits
  rw [foldlM_bitStep hi hhi (List.range 40) [0, 0, 0, 0, 0] (by intro b hb; simpa using hb) rfl]
  have hr : List.range 40 = [0,1,2,3,4,5,6,7,8,9,10,11,12,13,14,15,16,17,18,19,20,21,22,23,24,25,26,27,28,29,30,31,32,33,34,35,36,37,38,39] := by decide
  rw [hr]
  simp only [List.foldl_cons, List.foldl_nil, stepT]
  norm_num [byteAt, orBit_chain]

/-! ### The pulse loop returns -/

/-- With fuel for every remaining record and one more for the exit test, the
inner loop stops at some `j2` between its start and `edgeCount`. -/
theorem nextFalling_total (lv : List Nat) (n : Nat) (hlv : n ≤ lv.length) :
    ∀ (fuel j : Nat), j ≤ n → n + 1 ≤ fuel + j →
      ∃ j2, nextFalling lv n fuel j = some j2 ∧ j ≤ j2 ∧ j2 ≤ n := by
  intro fuel
  induction fuel with
  | zero => intro j hj hf; omega
  | succ fuel ih =>
    intro j hj hf
    unfold nextFalling
    by_cases hjn : j < n
    · rw [if_pos hjn, getElem?_eq_some_getD lv j (by omega)]
      simp only [Option.bind_eq_bind, Option.some_bind]
      by_cases hl : lv[j]?.getD 0 ≠ 0
      · rw [if_pos hl]
        obtain ⟨j2, h1, h2, h3⟩ := ih (j + 1) (by omega) (by omega)
        exact ⟨j2, h1, by omega, h3⟩
      · rw [if_neg hl]
        exact ⟨j, rfl, le_refl _, hj⟩
    · rw [if_neg hjn]
      exact ⟨j, rfl, le_refl _, hj⟩

theorem pulseLoop_total (t lv : List Nat) (n : Nat) (ht : n ≤ t.length) (hlv : n ≤ lv.length) :
    ∀ (fuel i : Nat) (hi : List Nat), i ≤ n → n + 1 ≤ fuel + i →
      ∃ out, pulseLoop t lv n fuel i hi = some out := by
  intro fuel
  induction fuel with
  | zero => intro i hi hin hf; omega
  | succ fuel ih =>
    intro i hi hin hf
    unfold pulseLoop
    by_cases hc : (i : Int) < (n : Int) - 1 ∧ hi.length < 50
    · rw [if_pos hc]
      have hi1 : i + 1 < n := by omega
      rw [getElem?_eq_some_getD lv i (by omega)]
      simp only [Option.bind_eq_bind, Option.some_bind]
      by_cases hl : lv[i]?.getD 0 = 1
      · rw [if_pos hl, getElem?_eq_some_getD t i (by omega)]
        simp only [Option.some_bind]
        obtain ⟨j, hj, hj1, hj2⟩ := nextFalling_total lv n hlv (n + 1) (i + 1) (by omega) (by omega)
        rw [hj]
        simp only [Option.some_bind]
        by_cases hjn : j ≥ n
        · rw [if_pos hjn]; exact ⟨hi, rfl⟩
        · rw [if_neg hjn, getElem?_eq_some_getD t j (by omega)]
          simp only [Option.some_bind]
          exact ih (j + 1) _ (by omega) (by omega)
      · rw [if_neg hl]
        exact ih (i + 1) _ (by omega) (by omega)
    · rw [if_neg hc]; exact ⟨hi, rfl⟩

theorem highPulses_total (s : Session) (hs : s.WellFormed) : ∃ hi, highPulses s = some hi := by
  obtain ⟨h1, h2, h3⟩ := hs
  exact pulseLoop_total s.edge_t s.edge_level s.edgeCount (by omega) (by omega) _ 0 [] (by omega) (by omega)
/-! ### The pulse loop on a sequence of rising/falling pairs -/

theorem nextFalling_at_zero (lv : List Nat) (n fuel j : Nat) (hj : j < n)
    (h0 : lv[j]? = some 0) : nextFalling lv n (fuel + 1) j = some j := by
  unfold nextFalling
  rw [if_pos hj, h0]
  simp

theorem pulseLoop_skip (t lv : List Nat) (n : Nat) :
    ∀ (m fuel i : Nat) (hi : List Nat), i + m + 1 < n → hi.length < 50 →
      (∀ q, q < m → lv[i + q]? = some 0) →
      pulseLoop t lv n (fuel + m) i hi = pulseLoop t lv n fuel (i + m) hi := by
  intro m
  induction m with
  | zero => intro fuel i hi _ _ _; rfl
  | succ m ih =>
    intro fuel i hi hin hlen h0
    have hc : (i : Int) < (n : Int) - 1 ∧ hi.length < 50 := ⟨by omega, hlen⟩
    have e : fuel + (m + 1) = (fuel + m) + 1 := by omega
    rw [e]
    conv => lhs; unfold pulseLoop
    have := h0 0 (by omega)
    simp only [Nat.add_zero] at this
    rw [if_pos hc, this]
    simp only [Option.bind_eq_bind, Option.some_bind]
    rw [if_neg (by decide)]
    rw [ih fuel (i + 1) hi (by omega) hlen (by intro q hq; have := h0 (q + 1) (by omega); rwa [show i + 1 + q = i + (q + 1) by omega])]
    congr 1; omega

theorem pulseLoop_pairs (s : Session) (lead total : Nat)
    (ht : s.edgeCount ≤ s.edge_t.length)
    (hn : s.edgeCount = lead + 2 * total) (htot : total ≤ 50)
    (hp : ∀ k, k < total → s.edge_level[lead + 2 * k]? = some 1 ∧
      s.edge_level[lead + 2 * k + 1]? = some 0) :
    ∀ (m k fuel : Nat) (hi : List Nat), k + m = total → hi.length = k → m + 1 ≤ fuel →
      pulseLoop s.edge_t s.edge_level s.edgeCount fuel (lead + 2 * k) hi =
        some (hi ++ (List.range m).map (fun q => pairWidth s lead (k + q))) := by
  intro m
  induction m with
  | zero =>
    intro k fuel hi hk hlen hf
    obtain ⟨fuel, rfl⟩ : ∃ f, fuel = f + 1 := ⟨fuel - 1, by omega⟩
    unfold pulseLoop
    rw [if_neg (by omega)]
    simp
  | succ m ih =>
    intro k fuel hi hk hlen hf
    obtain ⟨fuel, rfl⟩ : ∃ f, fuel = f + 1 := ⟨fuel - 1, by omega⟩
    have hc : ((lead + 2 * k : Nat) : Int) < (s.edgeCount : Int) - 1 ∧ hi.length < 50 :=
      ⟨by omega, by omega⟩
    obtain ⟨h1, h0⟩ := hp k (by omega)
    unfold pulseLoop
    rw [if_pos hc, h1]
    simp only [Option.bind_eq_bind, Option.some_bind, if_true]
    rw [getElem?_eq_some_getD s.edge_t (lead + 2 * k) (by omega)]
    simp only [Option.some_bind]
    rw [nextFalling_at_zero s.edge_level s.edgeCount s.edgeCount (lead + 2 * k + 1) (by omega) h0]
    simp only [Option.some_bind]
    rw [if_neg (by omega), getElem?_eq_some_getD s.edge_t (lead + 2 * k + 1) (by omega)]
    simp only [Option.some_bind]
    have e : lead + 2 * k + 1 + 1 = lead + 2 * (k + 1) := by omega
    rw [e, ih (k + 1) fuel _ (by omega) (by simp [hlen]) (by omega)]
    have hr : (List.range (m + 1)).map (fun q => pairWidth s lead (k + q)) =
        pairWidth s lead k :: (List.range m).map (fun q => pairWidth s lead (k + 1 + q)) := by
      rw [List.range_succ_eq_map, List.map_cons, List.map_map]
      congr 1
      apply List.map_congr_left
      intro q _
      show pairWidth s lead (k + (q + 1)) = _
      rw [show k + (q + 1) = k + 1 + q by omega]
    rw [hr]
    simp [pairWidth]
/-! ### Bytes, checksum and value conversion -/

set_option maxRecDepth 100000 in
theorem packByte_testBit : ∀ x, x < 256 →
    packByte (x.testBit 7) (x.testBit 6) (x.testBit 5) (x.testBit 4) (x.testBit 3)
      (x.testBit 2) (x.testBit 1) (x.testBit 0) = x := by
  decide

theorem packByte_lt (c0 c1 c2 c3 c4 c5 c6 c7 : Bool) : packByte c0 c1 c2 c3 c4 c5 c6 c7 < 256 := by
  unfold packByte
  have := Bool.toNat_le c0
  have := Bool.toNat_le c1
  have := Bool.toNat_le c2
  have := Bool.toNat_le c3
  have := Bool.toNat_le c4
  have := Bool.toNat_le c5
  have := Bool.toNat_le c6
  have := Bool.toNat_le c7
  omega

theorem testBit15_iff (r : Nat) (hr : r < 65536) : r.testBit 15 = true ↔ 32768 ≤ r := by
  rw [Nat.testBit_to_div_mod]
  simp only [decide_eq_true_eq]
  omega

theorem shl8_or (a b : Nat) (hb : b < 256) : (a <<< 8 ||| b) = 256 * a + b := by
  have hb2 : b < 2 ^ 8 := by norm_num; exact hb
  have h := Nat.mul_add_lt_is_or hb2 a
  rw [Nat.shiftLeft_eq, Nat.mul_comm]
  norm_num at h ⊢
  exact h.symm

theorem and_8000 (r : Nat) : r &&& 0x8000 = (r.testBit 15).toNat * 32768 := by
  have h := Nat.and_two_pow r 15
  norm_num at h ⊢
  exact h

theorem and_7FFF (r : Nat) : r &&& 0x7FFF = r % 32768 := by
  have h := Nat.and_pow_two_sub_one_eq_mod r 15
  norm_num at h ⊢
  exact h

theorem i16_small (x : Int) (h0 : -32768 ≤ x) (h1 : x < 32768) : i16 x = x := by
  unfold i16; omega

theorem checkAndConvert_of_sum (d0 d1 d2 d3 d4 : Nat) (tC rh : Int)
    (h0 : d0 < 256) (h1 : d1 < 256) (h2 : d2 < 256) (h3 : d3 < 256)
    (hsum : (d0 + d1 + d2 + d3) % 256 = d4) :
    checkAndConvert d0 d1 d2 d3 d4 tC rh =
      ⟨DHT22_OK, signMagnitude (256 * d2 + d3), ((256 * d0 + d1 : Nat) : Int)⟩ := by
  unfold checkAndConvert
  simp only [hsum, ne_eq, not_true_eq_false, if_false, shl8_or d0 d1 h1, shl8_or d2 d3 h3]
  have r0 : (256 * d0 + d1) % 65536 = 256 * d0 + d1 := by omega
  have r2 : (256 * d2 + d3) % 65536 = 256 * d2 + d3 := by omega
  rw [r0, r2]
  generalize hr : 256 * d2 + d3 = r
  have hr16 : r < 65536 := by omega
  rw [and_8000, and_7FFF]
  unfold signMagnitude
  have hm : r % 32768 < 32768 := Nat.mod_lt _ (by norm_num)
  have hm0 : (0 : Int) ≤ ((r % 32768 : Nat) : Int) := Int.ofNat_nonneg _
  have hm1 : ((r % 32768 : Nat) : Int) < 32768 := by exact_mod_cast hm
  have e1 : i16 ((r % 32768 : Nat) : Int) = ((r % 32768 : Nat) : Int) :=
    i16_small _ (by linarith) hm1
  have e2 : i16 (-((r % 32768 : Nat) : Int)) = -((r % 32768 : Nat) : Int) :=
    i16_small _ (by linarith) (by linarith)
  by_cases hb : r.testBit 15 = true
  · simp only [hb, Bool.toNat_true, Nat.one_mul, ne_eq, if_true]
    rw [if_pos (by decide), e1, e2]
  · have hlt : ¬ 32768 ≤ r := fun h => hb ((testBit15_iff r hr16).2 h)
    have hr0 : (0 : Int) ≤ (r : Int) := Int.ofNat_nonneg _
    have hr1 : (r : Int) < 32768 := by exact_mod_cast (Nat.lt_of_not_le hlt)
    have e3 : i16 (r : Int) = (r : Int) := i16_small _ (by linarith) hr1
    simp only [hb, Bool.toNat_false, Nat.zero_mul, ne_eq, not_true_eq_false, if_false]
    rw [e3, e3]
    rfl

theorem byteAt_lt (hi : List Nat) (k : Nat) : byteAt hi k < 256 := packByte_lt _ _ _ _ _ _ _ _

/-- Once 41 pulses are available the decoder's result is the checksum test and
conversion applied to the five packed bytes. -/
theorem decode_frame_of_pulses (s : Session) (hi : List Nat) (tC rh : Int)
    (hp : highPulses s = some hi) (h41 : 41 ≤ hi.length) :
    decode_frame s tC rh = some (checkAndConvert (byteAt hi 0) (byteAt hi 1) (byteAt hi 2)
      (byteAt hi 3) (byteAt hi 4) tC rh) := by
  unfold decode_frame
  rw [hp]
  simp only [Option.bind_eq_bind, Option.some_bind]
  rw [if_neg (by omega), decodeBits_eq hi h41]
  rfl

theorem decode_frame_of_few (s : Session) (hi : List Nat) (tC rh : Int)
    (hp : highPulses s = some hi) (h41 : hi.length < 41) :
    decode_frame s tC rh = some ⟨DHT22_ERROR_FRAME, tC, rh⟩ := by
  unfold decode_frame
  rw [hp]
  simp only [Option.bind_eq_bind, Option.some_bind]
  rw [if_pos h41]

theorem highPulses_of_pairs (s : Session) (lead : Nat) (hs : s.WellFormed)
    (hn : s.edgeCount = lead + 82)
    (hlead : ∀ i, i < lead → s.edge_level[i]? = some 0)
    (hpairs : ∀ k, k < 41 → s.edge_level[lead + 2 * k]? = some 1 ∧
      s.edge_level[lead + 2 * k + 1]? = some 0) :
    highPulses s = some ((List.range 41).map (fun q => pairWidth s lead q)) := by
  obtain ⟨h1, h2, h3⟩ := hs
  unfold highPulses
  rw [show s.edgeCount + 1 = 83 + lead by omega]
  rw [pulseLoop_skip s.edge_t s.edge_level s.edgeCount lead 83 0 [] (by omega) (by simp)
    (by intro q hq; rw [Nat.zero_add]; exact hlead q hq)]
  have := pulseLoop_pairs s lead 41 (by omega) (by omega) (by omega) hpairs 41 0 83 []
    (by omega) rfl (by omega)
  simp only [Nat.mul_zero, Nat.add_zero, Nat.zero_add, List.nil_append] at this
  rw [Nat.zero_add]
  exact this

theorem bitAt_of_pairs (s : Session) (lead b : Nat) (hb : b < 40) :
    bitAt ((List.range 41).map (fun q => pairWidth s lead q)) b =
      decide (50 < pairWidth s lead (b + 1)) := by
  unfold bitAt
  rw [List.getElem?_map, List.getElem?_range (by omega)]
  rfl

/-! ### Decoding a complete frame (C1) -/

/-- C1: a Ready session holding at most 90 records that consist of `lead` leading
falling-level records followed by 41 rising/falling record pairs - an
acknowledgement pulse of any width and 40 data pulses whose `k`-th width is
above 50 exactly when bit `k` (most significant bit first, byte 0 first) of the
bytes `d0 .. d4` is set - where `d4 = (d0+d1+d2+d3) mod 256` and `d2 < 0x80`,
is read by `DHT22_Edges_Read` as `DHT22_OK` with humidity `256*d0+d1` tenths and
temperature `256*d2+d3` tenths. -/
theorem read_decodes_wellformed_frame (s : Session) (lead d0 d1 d2 d3 d4 : Nat) (tC rh : Int)
    (hst : s.st = S_READY) (hs : s.WellFormed)
    (hn : s.edgeCount = lead + 82)
    (hlead : ∀ i, i < lead → s.edge_level[i]? = some 0)
    (hpairs : ∀ k, k < 41 → s.edge_level[lead + 2 * k]? = some 1 ∧
      s.edge_level[lead + 2 * k + 1]? = some 0)
    (h0 : d0 < 256) (h1 : d1 < 256) (h2 : d2 < 0x80) (h3 : d3 < 256)
    (hsum : d4 = (d0 + d1 + d2 + d3) % 256)
    (hbits : ∀ k, k < 40 →
      (50 < pairWidth s lead (k + 1) ↔
        ([d0, d1, d2, d3, d4][k / 8]?.getD 0).testBit (7 - k % 8) = true)) :
    DHT22_Edges_Read s tC rh =
      some ⟨DHT22_OK, { s with st := S_IDLE }, ((256 * d2 + d3 : Nat) : Int),
        ((256 * d0 + d1 : Nat) : Int)⟩ := by
  have hp := highPulses_of_pairs s lead hs hn hlead hpairs
  have h4 : d4 < 256 := by omega
  have hbit : ∀ b, b < 40 →
      bitAt ((List.range 41).map (fun q => pairWidth s lead q)) b =
        ([d0, d1, d2, d3, d4][b / 8]?.getD 0).testBit (7 - b % 8) := by
    intro b hb
    rw [bitAt_of_pairs s lead b hb]
    have := hbits b hb
    cases h : ([d0, d1, d2, d3, d4][b / 8]?.getD 0).testBit (7 - b % 8)
    · rw [h] at this; simpa using this
    · rw [h] at this; simpa using this
  have e0 : byteAt ((List.range 41).map (fun q => pairWidth s lead q)) 0 = d0 := by
    unfold byteAt
    rw [hbit _ (by norm_num), hbit _ (by norm_num), hbit _ (by norm_num), hbit _ (by norm_num),
      hbit _ (by norm_num), hbit _ (by norm_num), hbit _ (by norm_num), hbit _ (by norm_num)]
    exact packByte_testBit d0 h0
  have e1 : byteAt ((List.range 41).map (fun q => pairWidth s lead q)) 1 = d1 := by
    unfold byteAt
    rw [hbit _ (by norm_num), hbit _ (by norm_num), hbit _ (by norm_num), hbit _ (by norm_num),
      hbit _ (by norm_num), hbit _ (by norm_num), hbit _ (by norm_num), hbit _ (by norm_num)]
    exact packByte_testBit d1 h1
  have e2 : byteAt ((List.range 41).map (fun q => pairWidth s lead q)) 2 = d2 := by
    unfold byteAt
    rw [hbit _ (by norm_num), hbit _ (by norm_num), hbit _ (by norm_num), hbit _ (by norm_num),
      hbit _ (by norm_num), hbit _ (by norm_num), hbit _ (by norm_num), hbit _ (by norm_num)]
    exact packByte_testBit d2 (by omega)
  have e3 : byteAt ((List.range 41).map (fun q => pairWidth s lead q)) 3 = d3 := by
    unfold byteAt
    rw [hbit _ (by norm_num), hbit _ (by norm_num), hbit _ (by norm_num), hbit _ (by norm_num),
      hbit _ (by norm_num), hbit _ (by norm_num), hbit _ (by norm_num), hbit _ (by norm_num)]
    exact packByte_testBit d3 h3
  have e4 : byteAt ((List.range 41).map (fun q => pairWidth s lead q)) 4 = d4 := by
    unfold byteAt
    rw [hbit _ (by norm_num), hbit _ (by norm_num), hbit _ (by norm_num), hbit _ (by norm_num),
      hbit _ (by norm_num), hbit _ (by norm_num), hbit _ (by norm_num), hbit _ (by norm_num)]
    exact packByte_testBit d4 h4
  have hd := decode_frame_of_pulses s _ tC rh hp (by simp)
  rw [e0, e1, e2, e3, e4, checkAndConvert_of_sum d0 d1 d2 d3 d4 tC rh h0 h1 (by omega) h3 hsum.symm] at hd
  have hsm : signMagnitude (256 * d2 + d3) = ((256 * d2 + d3 : Nat) : Int) := by
    unfold signMagnitude
    have : (256 * d2 + d3).testBit 15 = false :=
      Nat.testBit_lt_two_pow (by norm_num; omega)
    rw [this]; rfl
  unfold DHT22_Edges_Read
  rw [hst, hd, hsm]
  rfl

/-! ### A single inverted bit (C2) -/

/-- The number of reconstructed pulses depends on the levels and the count
only, not on the timestamps. -/
theorem pulseLoop_length_congr (t t2 lv : List Nat) (n : Nat) :
    ∀ (fuel i : Nat) (hi hi2 out out2 : List Nat), hi.length = hi2.length →
      pulseLoop t lv n fuel i hi = some out → pulseLoop t2 lv n fuel i hi2 = some out2 →
      out.length = out2.length := by
  intro fuel
  induction fuel with
  | zero => intro i hi hi2 out out2 _ h _; simp [pulseLoop] at h
  | succ fuel ih =>
    intro i hi hi2 out out2 hlen h h2
    unfold pulseLoop at h h2
    rw [← hlen] at h2
    by_cases hc : (i : Int) < (n : Int) - 1 ∧ hi.length < 50
    · rw [if_pos hc] at h h2
      cases hl : lv[i]? with
      | none => rw [hl] at h; simp at h
      | some l =>
        rw [hl] at h h2
        simp only [Option.bind_eq_bind, Option.some_bind] at h h2
        by_cases hl1 : l = 1
        · rw [if_pos hl1] at h h2
          cases htr : t[i]? with
          | none => rw [htr] at h; simp at h
          | some t_r =>
            cases htr2 : t2[i]? with
            | none => rw [htr2] at h2; simp at h2
            | some t_r2 =>
              rw [htr] at h; rw [htr2] at h2
              simp only [Option.some_bind] at h h2
              cases hj : nextFalling lv n (n + 1) (i + 1) with
              | none => rw [hj] at h; simp at h
              | some j =>
                rw [hj] at h h2
                simp only [Option.some_bind] at h h2
                by_cases hjn : j ≥ n
                · rw [if_pos hjn] at h h2
                  simp only [Option.some.injEq] at h h2
                  rw [← h, ← h2, hlen]
                · rw [if_neg hjn] at h h2
                  cases htf : t[j]? with
                  | none => rw [htf] at h; simp at h
                  | some t_f =>
                    cases htf2 : t2[j]? with
                    | none => rw [htf2] at h2; simp at h2
                    | some t_f2 =>
                      rw [htf] at h; rw [htf2] at h2
                      simp only [Option.some_bind] at h h2
                      exact ih (j + 1) _ _ out out2 (by simp [hlen]) h h2
        · rw [if_neg hl1] at h h2
          exact ih (i + 1) hi hi2 out out2 hlen h h2
    · rw [if_neg hc] at h h2
      simp only [Option.some.injEq] at h h2
      rw [← h, ← h2, hlen]

/-- Flipping exactly one of the eight bits of a byte changes its value by the
weight of that bit. -/
theorem packByte_flip (c0 c1 c2 c3 c4 c5 c6 c7 e0 e1 e2 e3 e4 e5 e6 e7 : Bool) (p : Nat)
    (hp : p < 8)
    (h0 : e0 = if p = 0 then !c0 else c0) (h1 : e1 = if p = 1 then !c1 else c1)
    (h2 : e2 = if p = 2 then !c2 else c2) (h3 : e3 = if p = 3 then !c3 else c3)
    (h4 : e4 = if p = 4 then !c4 else c4) (h5 : e5 = if p = 5 then !c5 else c5)
    (h6 : e6 = if p = 6 then !c6 else c6) (h7 : e7 = if p = 7 then !c7 else c7) :
    ∃ w, (w = 1 ∨ w = 2 ∨ w = 4 ∨ w = 8 ∨ w = 16 ∨ w = 32 ∨ w = 64 ∨ w = 128) ∧
      (packByte e0 e1 e2 e3 e4 e5 e6 e7 = packByte c0 c1 c2 c3 c4 c5 c6 c7 + w ∨
       packByte e0 e1 e2 e3 e4 e5 e6 e7 + w = packByte c0 c1 c2 c3 c4 c5 c6 c7) := by
  subst h0 h1 h2 h3 h4 h5 h6 h7
  refine ⟨2 ^ (7 - p), ?_, ?_⟩
  · interval_cases p <;> decide
  · interval_cases p <;> revert c0 c1 c2 c3 c4 c5 c6 c7 <;> decide

/-- Byte `q` of the frame after the classification of data pulse `k` alone has
been inverted. -/
theorem byteAt_flip (hi hi2 : List Nat) (k q : Nat) (hq : q < 5)
    (h : ∀ j, j < 40 → bitAt hi2 j = (if j = k then !bitAt hi j else bitAt hi j)) :
    (k / 8 ≠ q → byteAt hi2 q = byteAt hi q) ∧
    (k / 8 = q → ∃ w, (w = 1 ∨ w = 2 ∨ w = 4 ∨ w = 8 ∨ w = 16 ∨ w = 32 ∨ w = 64 ∨ w = 128) ∧
      (byteAt hi2 q = byteAt hi q + w ∨ byteAt hi2 q + w = byteAt hi q)) := by
  constructor
  · intro hne
    have e : ∀ j, j < 40 → j / 8 = q → bitAt hi2 j = bitAt hi j := by
      intro j hj hjq
      rw [h j hj, if_neg (by omega)]
    unfold byteAt
    congr 1 <;> exact e _ (by omega) (by omega)
  · intro heq
    unfold byteAt
    apply packByte_flip _ _ _ _ _ _ _ _ _ _ _ _ _ _ _ _ (k % 8) (Nat.mod_lt _ (by norm_num))
    · rw [h _ (by omega)]; congr 1; apply propext; omega
    · rw [h _ (by omega)]; congr 1; apply propext; omega
    · rw [h _ (by omega)]; congr 1; apply propext; omega
    · rw [h _ (by omega)]; congr 1; apply propext; omega
    · rw [h _ (by omega)]; congr 1; apply propext; omega
    · rw [h _ (by omega)]; congr 1; apply propext; omega
    · rw [h _ (by omega)]; congr 1; apply propext; omega
    · rw [h _ (by omega)]; congr 1; apply propext; omega

theorem checkAndConvert_status_ok (d0 d1 d2 d3 d4 : Nat) (tC rh : Int)
    (h : (checkAndConvert d0 d1 d2 d3 d4 tC rh).status = DHT22_OK) :
    (d0 + d1 + d2 + d3) % 256 = d4 := by
  unfold checkAndConvert at h
  by_contra hne
  simp [hne] at h

theorem checkAndConvert_of_mismatch (d0 d1 d2 d3 d4 : Nat) (tC rh : Int)
    (h : (d0 + d1 + d2 + d3) % 256 ≠ d4) :
    checkAndConvert d0 d1 d2 d3 d4 tC rh = ⟨DHT22_ERROR_CHECKSUM, tC, rh⟩ := by
  unfold checkAndConvert
  simp [h]

/-- C2: if `decode_frame` returns `DHT22_OK` on a session, and a second session
with the same levels and edge count differs in its timestamps so that exactly
one of the 40 data pulses lies on the other side of the 50 us threshold while
every other data pulse keeps its classification, then `decode_frame` returns
`DHT22_ERROR_CHECKSUM` on the second session. -/
theorem single_flip_gives_checksum_error (s s2 : Session) (hi hi2 : List Nat) (k : Nat)
    (tC rh tC2 rh2 : Int) (r : DecodeResult)
    (hlv : s2.edge_level = s.edge_level) (hn : s2.edgeCount = s.edgeCount)
    (hp : highPulses s = some hi) (hp2 : highPulses s2 = some hi2)
    (hr : decode_frame s tC rh = some r) (hok : r.status = DHT22_OK)
    (hk : k < 40)
    (hflip : 50 < hi[k + 1]?.getD 0 ↔ ¬ 50 < hi2[k + 1]?.getD 0)
    (hrest : ∀ j, j < 40 → j ≠ k → (50 < hi[j + 1]?.getD 0 ↔ 50 < hi2[j + 1]?.getD 0)) :
    decode_frame s2 tC2 rh2 = some ⟨DHT22_ERROR_CHECKSUM, tC2, rh2⟩ := by
  have h41 : 41 ≤ hi.length := by
    by_contra hlt
    rw [decode_frame_of_few s hi tC rh hp (by omega)] at hr
    simp only [Option.some.injEq] at hr
    rw [← hr] at hok
    cases hok
  have hlen : hi.length = hi2.length := by
    unfold highPulses at hp hp2
    rw [hlv, hn] at hp2
    exact pulseLoop_length_congr s.edge_t s2.edge_t s.edge_level s.edgeCount _ 0 [] [] hi hi2
      rfl hp hp2
  rw [decode_frame_of_pulses s hi tC rh hp h41] at hr
  simp only [Option.some.injEq] at hr
  rw [← hr] at hok
  have hsum := checkAndConvert_status_ok _ _ _ _ _ _ _ hok
  have hbit : ∀ j, j < 40 → bitAt hi2 j = (if j = k then !bitAt hi j else bitAt hi j) := by
    intro j hj
    unfold bitAt
    by_cases hjk : j = k
    · subst hjk
      rw [if_pos rfl]
      by_cases hw : 50 < hi[j + 1]?.getD 0
      · have := hflip.1 hw; simp [hw, this]
      · have : 50 < hi2[j + 1]?.getD 0 := by
          by_contra h2; exact hw (hflip.2 h2)
        simp [hw, this]
    · rw [if_neg hjk]
      have := hrest j hj hjk
      by_cases hw : 50 < hi[j + 1]?.getD 0
      · simp [hw, this.1 hw]
      · have h2 : ¬ 50 < hi2[j + 1]?.getD 0 := fun h => hw (this.2 h)
        simp [hw, h2]
  rw [decode_frame_of_pulses s2 hi2 tC2 rh2 hp2 (by omega)]
  congr 1
  apply checkAndConvert_of_mismatch
  have b0 := byteAt_flip hi hi2 k 0 (by norm_num) hbit
  have b1 := byteAt_flip hi hi2 k 1 (by norm_num) hbit
  have b2 := byteAt_flip hi hi2 k 2 (by norm_num) hbit
  have b3 := byteAt_flip hi hi2 k 3 (by norm_num) hbit
  have b4 := byteAt_flip hi hi2 k 4 (by norm_num) hbit
  have l0 := byteAt_lt hi 0
  have l1 := byteAt_lt hi 1
  have l2 := byteAt_lt hi 2
  have l3 := byteAt_lt hi 3
  have l4 := byteAt_lt hi 4
  have m0 := byteAt_lt hi2 0
  have m1 := byteAt_lt hi2 1
  have m2 := byteAt_lt hi2 2
  have m3 := byteAt_lt hi2 3
  have m4 := byteAt_lt hi2 4
  have hq : k / 8 = 0 ∨ k / 8 = 1 ∨ k / 8 = 2 ∨ k / 8 = 3 ∨ k / 8 = 4 := by omega
  rcases hq with hq | hq | hq | hq | hq
  · obtain ⟨w, hw, hv⟩ := b0.2 hq
    have := b1.1 (by omega); have := b2.1 (by omega); have := b3.1 (by omega)
    have := b4.1 (by omega)
    omega
  · obtain ⟨w, hw, hv⟩ := b1.2 hq
    have := b0.1 (by omega); have := b2.1 (by omega); have := b3.1 (by omega)
    have := b4.1 (by omega)
    omega
  · obtain ⟨w, hw, hv⟩ := b2.2 hq
    have := b0.1 (by omega); have := b1.1 (by omega); have := b3.1 (by omega)
    have := b4.1 (by omega)
    omega
  · obtain ⟨w, hw, hv⟩ := b3.2 hq
    have := b0.1 (by omega); have := b1.1 (by omega); have := b2.1 (by omega)
    have := b4.1 (by omega)
    omega
  · obtain ⟨w, hw, hv⟩ := b4.2 hq
    have := b0.1 (by omega); have := b1.1 (by omega); have := b2.1 (by omega)
    have := b3.1 (by omega)
    omega

set_option maxRecDepth 100000 in
/-- Witness for C1: the sample frame (acknowledgement 80 us, data pulses of
28/70 us encoding `02 8C 01 04 93`) reads as humidity 652 tenths and
temperature 260 tenths. -/
theorem read_decodes_wellformed_frame_witness :
    DHT22_Edges_Read sampleFrame 0 0 =
      some ⟨DHT22_OK, { sampleFrame with st := S_IDLE }, ((256 * 0x01 + 0x04 : Nat) : Int),
        ((256 * 0x02 + 0x8C : Nat) : Int)⟩ :=
  read_decodes_wellformed_frame sampleFrame 1 0x02 0x8C 0x01 0x04 0x93 0 0 (by decide)
    (by decide) (by decide) (by decide) (by decide) (by decide) (by decide) (by decide)
    (by decide) (by decide) (by decide)

set_option maxRecDepth 100000 in
/-- Witness for C2: lengthening the first data pulse of the sample frame from
28 us to 70 us turns the result into a checksum error. -/
theorem single_flip_gives_checksum_error_witness :
    decode_frame sampleFrameFlipped 0 0 = some ⟨DHT22_ERROR_CHECKSUM, 0, 0⟩ :=
  single_flip_gives_checksum_error sampleFrame sampleFrameFlipped
    [80, 28, 28, 28, 28, 28, 28, 70, 28, 70, 28, 28, 28, 70, 70, 28, 28, 28, 28, 28, 28, 28, 28, 28,
      70, 28, 28, 28, 28, 28, 70, 28, 28, 70, 28, 28, 70, 28, 28, 70, 70]
    [80, 70, 28, 28, 28, 28, 28, 70, 28, 70, 28, 28, 28, 70, 70, 28, 28, 28, 28, 28, 28, 28, 28, 28,
      70, 28, 28, 28, 28, 28, 70, 28, 28, 70, 28, 28, 70, 28, 28, 70, 70]
    0 0 0 0 0 ⟨DHT22_OK, 260, 652⟩ (by decide) (by decide) (by decide) (by decide) (by decide)
    (by decide) (by decide) (by decide) (by decide)

/-! ### Framing error against checksum error (C3) -/

/-- The status returned by `checkAndConvert` is `DHT22_OK` or
`DHT22_ERROR_CHECKSUM`. -/
theorem checkAndConvert_status (d0 d1 d2 d3 d4 : Nat) (tC rh : Int) :
    (checkAndConvert d0 d1 d2 d3 d4 tC rh).status = DHT22_OK ∨
      (checkAndConvert d0 d1 d2 d3 d4 tC rh).status = DHT22_ERROR_CHECKSUM := by
  unfold checkAndConvert
  by_cases h : (d0 + d1 + d2 + d3) % 256 ≠ d4
  · right; simp [h]
  · left; simp [h]

/-- C3: for every well-formed buffer (any timestamps and levels, 0 to 90 records)
pulse reconstruction yields a list of high pulses; if it has fewer than 41
entries `decode_frame` returns `DHT22_ERROR_FRAME` and leaves the outputs alone,
and if it has at least 41 entries the status is not `DHT22_ERROR_FRAME`. -/
theorem frame_error_iff_few_pulses (s : Session) (tC rh : Int) (hs : s.WellFormed) :
    ∃ hi, highPulses s = some hi ∧
      (hi.length < 41 → decode_frame s tC rh = some ⟨DHT22_ERROR_FRAME, tC, rh⟩) ∧
      (41 ≤ hi.length →
        ∃ r, decode_frame s tC rh = some r ∧ r.status ≠ DHT22_ERROR_FRAME) := by
  obtain ⟨hi, hp⟩ := highPulses_total s hs
  refine ⟨hi, hp, fun h => decode_frame_of_few s hi tC rh hp h, fun h => ?_⟩
  refine ⟨_, decode_frame_of_pulses s hi tC rh hp h, ?_⟩
  rcases checkAndConvert_status (byteAt hi 0) (byteAt hi 1) (byteAt hi 2) (byteAt hi 3)
    (byteAt hi 4) tC rh with h1 | h1 <;> rw [h1] <;> decide

set_option maxRecDepth 100000 in
/-- Witness for C3 at the truncated sample frame, which holds 40 pulses. -/
theorem frame_error_iff_few_pulses_witness :
    ∃ hi, highPulses sampleFrameShort = some hi ∧
      (hi.length < 41 →
        decode_frame sampleFrameShort 7 9 = some ⟨DHT22_ERROR_FRAME, 7, 9⟩) ∧
      (41 ≤ hi.length →
        ∃ r, decode_frame sampleFrameShort 7 9 = some r ∧ r.status ≠ DHT22_ERROR_FRAME) :=
  frame_error_iff_few_pulses sampleFrameShort 7 9 (by decide)

/-! ### Sign-magnitude temperature (C4) -/

/-- The bit loop reads `hi[40]`, so it only completes on 41 or more pulses. -/
theorem decodeBits_length (hi d : List Nat) (h : decodeBits hi = some d) : 41 ≤ hi.length := by
  by_contra hlt
  have hnone : hi[39 + 1]? = none := List.getElem?_eq_none (by omega)
  unfold decodeBits at h
  rw [show (40 : Nat) = 39 + 1 from rfl, List.range_succ, List.foldlM_append] at h
  have hstep : ∀ d0, bitStep hi d0 39 = none := by
    intro d0; unfold bitStep; rw [hnone]; rfl
  simp [List.foldlM_cons, hstep] at h

/-- C4: when the bit loop has produced the frame bytes `d0 .. d4` and they pass the
checksum, `decode_frame` returns `DHT22_OK` and the temperature it stores, in
tenths, is the sign-magnitude reading of the 16-bit field `r = 256*d2 + d3`:
`-(r mod 0x8000)` when bit 15 of `r` is set and `r` otherwise. -/
theorem temperature_is_sign_magnitude (s : Session) (hi : List Nat) (d0 d1 d2 d3 d4 : Nat)
    (tC rh : Int)
    (hp : highPulses s = some hi) (hd : decodeBits hi = some [d0, d1, d2, d3, d4])
    (hsum : (d0 + d1 + d2 + d3) % 256 = d4) :
    ∃ r, decode_frame s tC rh = some r ∧ r.status = DHT22_OK ∧
      r.tC = if (256 * d2 + d3).testBit 15 then -(((256 * d2 + d3) % 0x8000 : Nat) : Int)
        else ((256 * d2 + d3 : Nat) : Int) := by
  have h41 : 41 ≤ hi.length := decodeBits_length hi _ hd
  rw [decodeBits_eq hi h41] at hd
  simp only [Option.some.injEq, List.cons.injEq, and_true] at hd
  obtain ⟨e0, e1, e2, e3, e4⟩ := hd
  have l0 := byteAt_lt hi 0
  have l1 := byteAt_lt hi 1
  have l2 := byteAt_lt hi 2
  have l3 := byteAt_lt hi 3
  rw [e0] at l0; rw [e1] at l1; rw [e2] at l2; rw [e3] at l3
  refine ⟨_, decode_frame_of_pulses s hi tC rh hp h41, ?_⟩
  rw [e0, e1, e2, e3, e4, checkAndConvert_of_sum d0 d1 d2 d3 d4 tC rh l0 l1 l2 l3 hsum]
  exact ⟨rfl, rfl⟩

set_option maxRecDepth 100000 in
/-- Witness for C4: in the sample frame with bytes `02 8C 80 32 40` the
temperature field is `0x8032` (sign bit set, magnitude 50). -/
theorem temperature_is_sign_magnitude_witness :
    ∃ r, decode_frame sampleFrameNegative 0 0 = some r ∧ r.status = DHT22_OK ∧
      r.tC = if (256 * 0x80 + 0x32).testBit 15 then
          -(((256 * 0x80 + 0x32) % 0x8000 : Nat) : Int)
        else ((256 * 0x80 + 0x32 : Nat) : Int) :=
  temperature_is_sign_magnitude sampleFrameNegative
    [80, 28, 28, 28, 28, 28, 28, 70, 28, 70, 28, 28, 28, 70, 70, 28, 28, 70, 28, 28, 28, 28, 28, 28,
      28, 28, 28, 70, 70, 28, 28, 70, 28, 28, 70, 28, 28, 28, 28, 28, 28]
    0x02 0x8C 0x80 0x32 0x40 0 0 (by decide) (by decide) (by decide)

/-! ### The session invariant and the buffer bound (C5) -/

theorem inv_initial : Session.initial.Inv := by
  unfold Session.Inv Session.WellFormed Session.initial MAX_EDGES
  simp

theorem inv_start (s : Session) (tick : Nat) (h : s.Inv) : (DHT22_Edges_Start s tick).Inv := by
  unfold DHT22_Edges_Start
  by_cases hst : s.st ≠ S_IDLE
  · rw [if_pos hst]; exact h
  · rw [if_neg hst]
    unfold Session.Inv Session.WellFormed MAX_EDGES
    simp

theorem inv_of_st_change (s : Session) (x : state_t) (h : s.Inv) (hx : x ≠ S_CAPTURING) :
    ({ s with st := x } : Session).Inv := by
  obtain ⟨h1, _, h3⟩ := h
  exact ⟨h1, fun hc => absurd hc hx, h3⟩

theorem inv_service (s : Session) (tick counter : Nat) (h : s.Inv) :
    (DHT22_Edges_Service s tick counter).Inv := by
  unfold DHT22_Edges_Service
  by_cases h1 : s.st ≠ S_CAPTURING
  · rw [if_pos h1]; exact h
  rw [if_neg h1]
  by_cases h2 : u32 ((tick : Int) - (s.start_ms : Int)) > TRANS_TIMEOUT_MS
  · rw [if_pos h2]; exact inv_of_st_change s _ h (by decide)
  rw [if_neg h2]
  by_cases h3 : s.edgeCount ≥ MAX_EDGES
  · rw [if_pos h3]; exact inv_of_st_change s _ h (by decide)
  rw [if_neg h3]
  by_cases h4 : s.haveNewEdge ≠ 0
  · rw [if_pos h4]
    by_cases h5 : u16 ((u16 (counter : Int) : Nat) - (s.lastEdgeCounter : Int)) > SILENCE_US
    · simp only [h5, if_true]; exact inv_of_st_change s _ h (by decide)
    · simp only [h5, if_false]; exact h
  · rw [if_neg h4]; exact h

theorem inv_callback (s : Session) (a b : Bool) (c : Nat) (p : Bool) (h : s.Inv) :
    (DHT22_Edges_TIM_IC_Callback s a b c p).Inv := by
  unfold DHT22_Edges_TIM_IC_Callback
  by_cases hst : s.st ≠ S_CAPTURING
  · rw [if_pos hst]; exact h
  rw [if_neg hst]
  by_cases ha : a = false
  · rw [if_pos ha]; exact h
  rw [if_neg ha]
  by_cases hb : b = false
  · rw [if_pos hb]; exact h
  rw [if_neg hb]
  obtain ⟨⟨h1, h2, h3⟩, h4, h5⟩ := h
  have hc : s.st = S_CAPTURING := by simpa using hst
  have hlt := h4 hc
  unfold MAX_EDGES at hlt h1 h2 h3
  have hm : (s.edgeCount + 1) % 256 = s.edgeCount + 1 := by omega
  simp only [MAX_EDGES, hlt, if_true, hm]
  unfold Session.Inv Session.WellFormed MAX_EDGES
  by_cases hfull : s.edgeCount + 1 ≥ 90
  · rw [if_pos hfull]
    simp only [List.length_set, h1, h2]
    refine ⟨⟨trivial, trivial, hlt⟩, (fun hx => by cases hx), ?_⟩
    simp
  · rw [if_neg hfull]
    simp only [List.length_set, h1, h2]
    refine ⟨⟨trivial, trivial, hlt⟩, (fun _ => by omega), ?_⟩
    simp

/-- On a well-formed buffer `decode_frame` returns, with one of three statuses. -/
theorem decode_frame_total (s : Session) (tC rh : Int) (hs : s.WellFormed) :
    ∃ r, decode_frame s tC rh = some r ∧
      (r.status = DHT22_OK ∨ r.status = DHT22_ERROR_CHECKSUM ∨ r.status = DHT22_ERROR_FRAME) := by
  obtain ⟨hi, hp⟩ := highPulses_total s hs
  by_cases h : hi.length < 41
  · exact ⟨_, decode_frame_of_few s hi tC rh hp h, Or.inr (Or.inr rfl)⟩
  · refine ⟨_, decode_frame_of_pulses s hi tC rh hp (by omega), ?_⟩
    rcases checkAndConvert_status (byteAt hi 0) (byteAt hi 1) (byteAt hi 2) (byteAt hi 3)
      (byteAt hi 4) tC rh with h1 | h1
    · exact Or.inl h1
    · exact Or.inr (Or.inl h1)

theorem read_total (s : Session) (tC rh : Int) (h : s.Inv) :
    ∃ r, DHT22_Edges_Read s tC rh = some r ∧ r.session.Inv := by
  unfold DHT22_Edges_Read
  by_cases h1 : s.st = S_CAPTURING
  · rw [if_pos h1]; exact ⟨_, rfl, h⟩
  rw [if_neg h1]
  by_cases h2 : s.st = S_IDLE
  · rw [if_pos h2]; exact ⟨_, rfl, h⟩
  rw [if_neg h2]
  obtain ⟨r, hr, _⟩ := decode_frame_total s tC rh h.1
  rw [hr]
  exact ⟨_, rfl, inv_of_st_change s _ h (by decide)⟩

theorem apply_inv (s : Session) (c : Call) (h : s.Inv) : ∃ s2, c.apply s = some s2 ∧ s2.Inv := by
  cases c with
  | init => exact ⟨_, rfl, h⟩
  | start tick => exact ⟨_, rfl, inv_start s tick h⟩
  | service tick counter => exact ⟨_, rfl, inv_service s tick counter h⟩
  | callback a b c p => exact ⟨_, rfl, inv_callback s a b c p h⟩
  | read tC rh =>
    obtain ⟨r, hr, hi⟩ := read_total s tC rh h
    exact ⟨r.session, by simp [Call.apply, hr], hi⟩

theorem runCalls_inv (cs : List Call) : ∀ s : Session, s.Inv →
    ∃ s2, runCalls s cs = some s2 ∧ s2.Inv := by
  induction cs with
  | nil => intro s h; exact ⟨s, rfl, h⟩
  | cons c cs ih =>
    intro s h
    obtain ⟨s1, h1, hi1⟩ := apply_inv s c h
    obtain ⟨s2, h2, hi2⟩ := ih s1 hi1
    exact ⟨s2, by simp [runCalls, h1, h2], hi2⟩

/-- C5: after any sequence of `Init`, `Start`, `Service`, capture-callback and
`Read` calls with arbitrary HAL inputs, starting from the initial session, every
call has returned, the number of stored edge records is at most `MAX_EDGES = 90`,
and it is strictly below 90 whenever the state is Capturing. -/
theorem edge_count_never_exceeds_capacity (cs : List Call) :
    ∃ s, runCalls Session.initial cs = some s ∧ s.edgeCount ≤ MAX_EDGES ∧
      (s.st = S_CAPTURING → s.edgeCount < MAX_EDGES) := by
  obtain ⟨s, hs, hinv⟩ := runCalls_inv cs Session.initial inv_initial
  exact ⟨s, hs, hinv.1.2.2, hinv.2.1⟩

/-- Witness for C5 after a start and one recorded edge. -/
theorem edge_count_never_exceeds_capacity_witness :
    ∃ s, runCalls Session.initial [Call.start 1000, Call.callback true true 100 true] = some s ∧
      s.edgeCount ≤ MAX_EDGES ∧ (s.st = S_CAPTURING → s.edgeCount < MAX_EDGES) :=
  edge_count_never_exceeds_capacity [Call.start 1000, Call.callback true true 100 true]

/-! ### Reading a session (C6, C7, C8, C9) -/

/-- C6: on a Ready session with a well-formed buffer the decoder returns a result
`d` whose status is `DHT22_OK`, `DHT22_ERROR_CHECKSUM` or `DHT22_ERROR_FRAME`; the
first `DHT22_Edges_Read` returns that result and leaves the session Idle with
everything else unchanged; a second `DHT22_Edges_Read` returns
`DHT22_ERROR_TIMEOUT` and leaves the session and both outputs unchanged. -/
theorem read_twice_after_ready (s : Session) (tC rh tC2 rh2 : Int)
    (hst : s.st = S_READY) (hs : s.WellFormed) :
    ∃ d, decode_frame s tC rh = some d ∧
      (d.status = DHT22_OK ∨ d.status = DHT22_ERROR_CHECKSUM ∨ d.status = DHT22_ERROR_FRAME) ∧
      DHT22_Edges_Read s tC rh = some ⟨d.status, { s with st := S_IDLE }, d.tC, d.rh⟩ ∧
      DHT22_Edges_Read { s with st := S_IDLE } tC2 rh2 =
        some ⟨DHT22_ERROR_TIMEOUT, { s with st := S_IDLE }, tC2, rh2⟩ := by
  obtain ⟨d, hd, hstat⟩ := decode_frame_total s tC rh hs
  refine ⟨d, hd, hstat, ?_, ?_⟩
  · unfold DHT22_Edges_Read
    rw [hst, hd]
    rfl
  · rfl

set_option maxRecDepth 100000 in
/-- Witness for C6 at the sample frame. -/
theorem read_twice_after_ready_witness :
    ∃ d, decode_frame sampleFrame 0 0 = some d ∧
      (d.status = DHT22_OK ∨ d.status = DHT22_ERROR_CHECKSUM ∨ d.status = DHT22_ERROR_FRAME) ∧
      DHT22_Edges_Read sampleFrame 0 0 =
        some ⟨d.status, { sampleFrame with st := S_IDLE }, d.tC, d.rh⟩ ∧
      DHT22_Edges_Read { sampleFrame with st := S_IDLE } 5 6 =
        some ⟨DHT22_ERROR_TIMEOUT, { sampleFrame with st := S_IDLE }, 5, 6⟩ :=
  read_twice_after_ready sampleFrame 0 0 5 6 (by decide) (by decide)

/-- C7: on a Capturing session (any edge count), if the elapsed time - tick minus
start tick as `uint32_t` - exceeds 50, `DHT22_Edges_Service` only sets the state
to Idle and the next `DHT22_Edges_Read` returns `DHT22_ERROR_TIMEOUT` without
touching the outputs; if the elapsed time is at most 50 the state after
`DHT22_Edges_Service` is not Idle. -/
theorem service_overall_timeout (s : Session) (tick counter : Nat) (hst : s.st = S_CAPTURING) :
    (TRANS_TIMEOUT_MS < u32 ((tick : Int) - (s.start_ms : Int)) →
      DHT22_Edges_Service s tick counter = { s with st := S_IDLE } ∧
      ∀ tC rh : Int, DHT22_Edges_Read (DHT22_Edges_Service s tick counter) tC rh =
        some ⟨DHT22_ERROR_TIMEOUT, { s with st := S_IDLE }, tC, rh⟩) ∧
    (u32 ((tick : Int) - (s.start_ms : Int)) ≤ TRANS_TIMEOUT_MS →
      (DHT22_Edges_Service s tick counter).st ≠ S_IDLE) := by
  constructor
  · intro h
    have e : DHT22_Edges_Service s tick counter = { s with st := S_IDLE } := by
      unfold DHT22_Edges_Service
      rw [if_neg (by rw [hst]; decide), if_pos h]
    rw [e]
    exact ⟨rfl, fun _ _ => rfl⟩
  · intro h
    unfold DHT22_Edges_Service
    rw [if_neg (by rw [hst]; decide), if_neg (by omega)]
    by_cases h3 : s.edgeCount ≥ MAX_EDGES
    · rw [if_pos h3]; show S_READY ≠ S_IDLE; decide
    rw [if_neg h3]
    by_cases h4 : s.haveNewEdge ≠ 0
    · rw [if_pos h4]
      by_cases h5 : u16 ((u16 (counter : Int) : Nat) - (s.lastEdgeCounter : Int)) > SILENCE_US
      · simp only [h5, if_true]; show S_READY ≠ S_IDLE; decide
      · simp only [h5, if_false]; rw [hst]; decide
    · rw [if_neg h4, hst]; decide

/-- Witness for C7: the sample capturing session, started at tick 1000, polled
at tick 1051. -/
theorem service_overall_timeout_witness :
    (TRANS_TIMEOUT_MS < u32 (((1051 : Nat) : Int) - (sampleCapturing.start_ms : Int)) →
      DHT22_Edges_Service sampleCapturing 1051 130 = { sampleCapturing with st := S_IDLE } ∧
      ∀ tC rh : Int, DHT22_Edges_Read (DHT22_Edges_Service sampleCapturing 1051 130) tC rh =
        some ⟨DHT22_ERROR_TIMEOUT, { sampleCapturing with st := S_IDLE }, tC, rh⟩) ∧
    (u32 (((1051 : Nat) : Int) - (sampleCapturing.start_ms : Int)) ≤ TRANS_TIMEOUT_MS →
      (DHT22_Edges_Service sampleCapturing 1051 130).st ≠ S_IDLE) :=
  service_overall_timeout sampleCapturing 1051 130 (by decide)

theorem u16_sub_u16 (c l : Int) : u16 ((u16 c : Nat) - l) = u16 (c - l) := by
  unfold u16
  have h : ((c % 65536).toNat : Int) = c % 65536 :=
    Int.toNat_of_nonneg (Int.emod_nonneg _ (by norm_num))
  rw [h]
  congr 1
  omega

/-- C8: on a reachable Capturing session whose overall timeout has not elapsed,
`DHT22_Edges_Service` makes the state Ready exactly when at least one edge has
been recorded and the counter minus the last-edge timestamp, as `uint16_t`,
exceeds 500; in that case only the state changes, otherwise the session is
unchanged; a session with zero recorded edges is left unchanged. -/
theorem service_silence (cs : List Call) (s : Session) (tick counter : Nat)
    (hreach : runCalls Session.initial cs = some s) (hst : s.st = S_CAPTURING)
    (hel : u32 ((tick : Int) - (s.start_ms : Int)) ≤ TRANS_TIMEOUT_MS) :
    ((DHT22_Edges_Service s tick counter).st = S_READY ↔
      (0 < s.edgeCount ∧ SILENCE_US < u16 ((counter : Int) - (s.lastEdgeCounter : Int)))) ∧
    ((0 < s.edgeCount ∧ SILENCE_US < u16 ((counter : Int) - (s.lastEdgeCounter : Int))) →
      DHT22_Edges_Service s tick counter = { s with st := S_READY }) ∧
    (¬ (0 < s.edgeCount ∧ SILENCE_US < u16 ((counter : Int) - (s.lastEdgeCounter : Int))) →
      DHT22_Edges_Service s tick counter = s) ∧
    (s.edgeCount = 0 → DHT22_Edges_Service s tick counter = s) := by
  obtain ⟨s2, hs2, hinv⟩ := runCalls_inv cs Session.initial inv_initial
  rw [hreach] at hs2
  simp only [Option.some.injEq] at hs2
  subst hs2
  obtain ⟨_, hcap, hflag⟩ := hinv
  have hlt := hcap hst
  have hyes : (0 < s.edgeCount ∧ SILENCE_US < u16 ((counter : Int) - (s.lastEdgeCounter : Int))) →
      DHT22_Edges_Service s tick counter = { s with st := S_READY } := by
    intro ⟨h1, h2⟩
    unfold DHT22_Edges_Service
    rw [if_neg (by rw [hst]; decide), if_neg (by omega), if_neg (by omega),
      if_pos (hflag.2 h1)]
    simp only [u16_sub_u16]
    rw [if_pos h2]
  have hno : ¬ (0 < s.edgeCount ∧ SILENCE_US < u16 ((counter : Int) - (s.lastEdgeCounter : Int))) →
      DHT22_Edges_Service s tick counter = s := by
    intro h
    unfold DHT22_Edges_Service
    rw [if_neg (by rw [hst]; decide), if_neg (by omega), if_neg (by omega)]
    by_cases h4 : s.haveNewEdge ≠ 0
    · rw [if_pos h4]
      simp only [u16_sub_u16]
      rw [if_neg (fun h5 => h ⟨hflag.1 h4, h5⟩)]
    · rw [if_neg h4]
  refine ⟨⟨fun h => ?_, fun h => by rw [hyes h]⟩, hyes, hno, fun h0 => hno (by omega)⟩
  by_contra hn
  rw [hno hn, hst] at h
  cases h

/-- Witness for C8: one edge recorded at counter value 100, polled at counter
value 700 and tick 1010. -/
theorem service_silence_witness :
    ((DHT22_Edges_Service sampleCapturing 1010 700).st = S_READY ↔
      (0 < sampleCapturing.edgeCount ∧
        SILENCE_US < u16 (((700 : Nat) : Int) - (sampleCapturing.lastEdgeCounter : Int)))) ∧
    ((0 < sampleCapturing.edgeCount ∧
        SILENCE_US < u16 (((700 : Nat) : Int) - (sampleCapturing.lastEdgeCounter : Int))) →
      DHT22_Edges_Service sampleCapturing 1010 700 = { sampleCapturing with st := S_READY }) ∧
    (¬ (0 < sampleCapturing.edgeCount ∧
        SILENCE_US < u16 (((700 : Nat) : Int) - (sampleCapturing.lastEdgeCounter : Int))) →
      DHT22_Edges_Service sampleCapturing 1010 700 = sampleCapturing) ∧
    (sampleCapturing.edgeCount = 0 →
      DHT22_Edges_Service sampleCapturing 1010 700 = sampleCapturing) :=
  service_silence [Call.start 1000, Call.callback true true 100 true] sampleCapturing 1010 700
    (by decide) (by decide) (by decide)

/-- C9: in the initial session, with or without `DHT22_Edges_Init`, and in every
Idle session, `DHT22_Edges_Read` returns `DHT22_ERROR_TIMEOUT` and leaves the
session and both outputs unchanged. -/
theorem read_when_idle :
    (∀ tC rh : Int, DHT22_Edges_Read Session.initial tC rh =
      some ⟨DHT22_ERROR_TIMEOUT, Session.initial, tC, rh⟩) ∧
    (∀ tC rh : Int, DHT22_Edges_Read (DHT22_Edges_Init Session.initial) tC rh =
      some ⟨DHT22_ERROR_TIMEOUT, Session.initial, tC, rh⟩) ∧
    (∀ (s : Session) (tC rh : Int), s.st = S_IDLE →
      DHT22_Edges_Read s tC rh = some ⟨DHT22_ERROR_TIMEOUT, s, tC, rh⟩) := by
  refine ⟨fun _ _ => rfl, fun _ _ => rfl, fun s tC rh h => ?_⟩
  unfold DHT22_Edges_Read
  rw [h]
  rfl

/-- Witness for C9 at the session left by a consumed frame. -/
theorem read_when_idle_witness :
    DHT22_Edges_Read { sampleFrame with st := S_IDLE } 3 4 =
      some ⟨DHT22_ERROR_TIMEOUT, { sampleFrame with st := S_IDLE }, 3, 4⟩ :=
  read_when_idle.2.2 { sampleFrame with st := S_IDLE } 3 4 rfl

/-! ### Recording an edge (C10) -/

/-- C10: on a Capturing session with `n < 90` records and a well-formed buffer, a
capture callback for TIM2 channel 2 with 16-bit timestamp `ts` and pin level
`lvl` stores `(ts, lvl)` as record `n`, leaves every other record unchanged,
makes the count `n + 1`, sets the last-edge timestamp to `ts` and the new-edge
flag to 1, keeps the start time, and leaves the state Ready if `n + 1 = 90` and
Capturing otherwise. -/
theorem callback_appends_record (s : Session) (ts : Nat) (lvl : Bool)
    (hst : s.st = S_CAPTURING) (hn : s.edgeCount < MAX_EDGES) (hs : s.WellFormed)
    (hts : ts < 65536) :
    DHT22_Edges_TIM_IC_Callback s true true ts lvl =
      { st := if s.edgeCount + 1 = MAX_EDGES then S_READY else S_CAPTURING
        edge_t := s.edge_t.set s.edgeCount ts
        edge_level := s.edge_level.set s.edgeCount (if lvl then 1 else 0)
        edgeCount := s.edgeCount + 1
        lastEdgeCounter := ts
        start_ms := s.start_ms
        haveNewEdge := 1 } ∧
    (∀ i, i ≠ s.edgeCount →
      (DHT22_Edges_TIM_IC_Callback s true true ts lvl).edge_t[i]? = s.edge_t[i]? ∧
      (DHT22_Edges_TIM_IC_Callback s true true ts lvl).edge_level[i]? = s.edge_level[i]?) ∧
    (DHT22_Edges_TIM_IC_Callback s true true ts lvl).edge_t[s.edgeCount]? = some ts ∧
    (DHT22_Edges_TIM_IC_Callback s true true ts lvl).edge_level[s.edgeCount]? =
      some (if lvl then 1 else 0) := by
  obtain ⟨h1, h2, _⟩ := hs
  have hu : u16 (ts : Int) = ts := by unfold u16; omega
  have hm : (s.edgeCount + 1) % 256 = s.edgeCount + 1 := by unfold MAX_EDGES at hn; omega
  have e : DHT22_Edges_TIM_IC_Callback s true true ts lvl =
      { st := if s.edgeCount + 1 = MAX_EDGES then S_READY else S_CAPTURING
        edge_t := s.edge_t.set s.edgeCount ts
        edge_level := s.edge_level.set s.edgeCount (if lvl then 1 else 0)
        edgeCount := s.edgeCount + 1
        lastEdgeCounter := ts
        start_ms := s.start_ms
        haveNewEdge := 1 } := by
    unfold DHT22_Edges_TIM_IC_Callback
    rw [if_neg (by rw [hst]; decide), if_neg (by decide), if_neg (by decide)]
    simp only [hn, if_true, hu, hm]
    by_cases hf : s.edgeCount + 1 = MAX_EDGES
    · rw [if_pos (by omega), if_pos hf]
    · rw [if_neg (by omega), if_neg hf, hst]
  rw [e]
  refine ⟨rfl, fun i hi => ⟨?_, ?_⟩, ?_, ?_⟩
  · exact List.getElem?_set_ne (Ne.symm hi)
  · exact List.getElem?_set_ne (Ne.symm hi)
  · exact List.getElem?_set_self (by rw [h1]; exact hn)
  · exact List.getElem?_set_self (by rw [h2]; exact hn)


/-- Witness for C10: a second edge, falling at counter value 180, recorded by the
sample capturing session. -/
theorem callback_appends_record_witness :
    DHT22_Edges_TIM_IC_Callback sampleCapturing true true 180 false =
      { st := if sampleCapturing.edgeCount + 1 = MAX_EDGES then S_READY else S_CAPTURING
        edge_t := sampleCapturing.edge_t.set sampleCapturing.edgeCount 180
        edge_level := sampleCapturing.edge_level.set sampleCapturing.edgeCount
          (if false then 1 else 0)
        edgeCount := sampleCapturing.edgeCount + 1
        lastEdgeCounter := 180
        start_ms := sampleCapturing.start_ms
        haveNewEdge := 1 } ∧
    (∀ i, i ≠ sampleCapturing.edgeCount →
      (DHT22_Edges_TIM_IC_Callback sampleCapturing true true 180 false).edge_t[i]? =
        sampleCapturing.edge_t[i]? ∧
      (DHT22_Edges_TIM_IC_Callback sampleCapturing true true 180 false).edge_level[i]? =
        sampleCapturing.edge_level[i]?) ∧
    (DHT22_Edges_TIM_IC_Callback sampleCapturing true true 180 false).edge_t[
      sampleCapturing.edgeCount]? = some 180 ∧
    (DHT22_Edges_TIM_IC_Callback sampleCapturing true true 180 false).edge_level[
      sampleCapturing.edgeCount]? = some (if false then 1 else 0) :=
  callback_appends_record sampleCapturing 180 false (by decide) (by decide) (by decide)
    (by decide)

/-! ### Starting a transaction and the state table (C11, C12) -/

/-- C11: on an Idle session, whatever its buffer holds, `DHT22_Edges_Start` with a
32-bit tick yields state Capturing, edge count 0, the new-edge flag cleared,
both arrays of 90 entries all zero and the start time equal to the tick; the
last-edge timestamp is kept. -/
theorem start_clears_and_arms (s : Session) (tick : Nat)
    (hst : s.st = S_IDLE) (htick : tick < 4294967296) :
    DHT22_Edges_Start s tick =
      { st := S_CAPTURING
        edge_t := List.replicate MAX_EDGES 0
        edge_level := List.replicate MAX_EDGES 0
        edgeCount := 0
        lastEdgeCounter := s.lastEdgeCounter
        start_ms := tick
        haveNewEdge := 0 } ∧
    (DHT22_Edges_Start s tick).edge_t.length = 90 ∧
    (DHT22_Edges_Start s tick).edge_level.length = 90 ∧
    (∀ i, i < 90 → (DHT22_Edges_Start s tick).edge_t[i]? = some 0 ∧
      (DHT22_Edges_Start s tick).edge_level[i]? = some 0) := by
  have hu : u32 (tick : Int) = tick := by unfold u32; omega
  have e : DHT22_Edges_Start s tick =
      { st := S_CAPTURING
        edge_t := List.replicate MAX_EDGES 0
        edge_level := List.replicate MAX_EDGES 0
        edgeCount := 0
        lastEdgeCounter := s.lastEdgeCounter
        start_ms := tick
        haveNewEdge := 0 } := by
    unfold DHT22_Edges_Start
    rw [if_neg (by rw [hst]; decide), hu]
  rw [e]
  refine ⟨rfl, by simp [MAX_EDGES], by simp [MAX_EDGES], fun i hi => ?_⟩
  simp only [MAX_EDGES]
  constructor <;> rw [List.getElem?_replicate] <;> simp [hi]

/-- Witness for C11: a start at tick 2000 on the Idle session left by a consumed
frame. -/
theorem start_clears_and_arms_witness :
    DHT22_Edges_Start { sampleFrame with st := S_IDLE } 2000 =
      { st := S_CAPTURING
        edge_t := List.replicate MAX_EDGES 0
        edge_level := List.replicate MAX_EDGES 0
        edgeCount := 0
        lastEdgeCounter := 3710
        start_ms := 2000
        haveNewEdge := 0 } :=
  (start_clears_and_arms { sampleFrame with st := S_IDLE } 2000 rfl (by decide)).1

/-- From any result of `decode_frame` the status is one of the three decoder
statuses. -/
theorem decode_frame_status (s : Session) (tC rh : Int) (d : DecodeResult)
    (h : decode_frame s tC rh = some d) :
    d.status = DHT22_OK ∨ d.status = DHT22_ERROR_CHECKSUM ∨ d.status = DHT22_ERROR_FRAME := by
  cases hp : highPulses s with
  | none => unfold decode_frame at h; rw [hp] at h; simp at h
  | some hi =>
    by_cases hlen : hi.length < 41
    · rw [decode_frame_of_few s hi tC rh hp hlen] at h
      simp only [Option.some.injEq] at h
      rw [← h]; exact Or.inr (Or.inr rfl)
    · rw [decode_frame_of_pulses s hi tC rh hp (by omega)] at h
      simp only [Option.some.injEq] at h
      rw [← h]
      rcases checkAndConvert_status (byteAt hi 0) (byteAt hi 1) (byteAt hi 2) (byteAt hi 3)
        (byteAt hi 4) tC rh with h1 | h1
      · exact Or.inl h1
      · exact Or.inr (Or.inl h1)

/-- Every result of `DHT22_Edges_Read` on a Ready session is the decoder's result
together with the session set to Idle. -/
theorem read_ready_result (s : Session) (tC rh : Int) (r : ReadResult) (hst : s.st = S_READY)
    (h : DHT22_Edges_Read s tC rh = some r) :
    ∃ d, decode_frame s tC rh = some d ∧ r = ⟨d.status, { s with st := S_IDLE }, d.tC, d.rh⟩ := by
  unfold DHT22_Edges_Read at h
  rw [hst] at h
  cases hd : decode_frame s tC rh with
  | none => rw [hd] at h; simp at h
  | some d =>
    rw [hd] at h
    simp at h
    exact ⟨d, rfl, h.symm⟩

/-- On a well-formed session `DHT22_Edges_Read` returns. -/
theorem read_returns (s : Session) (tC rh : Int) (hs : s.WellFormed) :
    ∃ r, DHT22_Edges_Read s tC rh = some r := by
  unfold DHT22_Edges_Read
  by_cases h1 : s.st = S_CAPTURING
  · rw [if_pos h1]; exact ⟨_, rfl⟩
  rw [if_neg h1]
  by_cases h2 : s.st = S_IDLE
  · rw [if_pos h2]; exact ⟨_, rfl⟩
  rw [if_neg h2]
  obtain ⟨d, hd, _⟩ := decode_frame_total s tC rh hs
  rw [hd]; exact ⟨_, rfl⟩

/-- C12: every call on a well-formed session returns, and for every call on any
session the state either stays as it was or changes by one of: Idle to
Capturing (the call is `DHT22_Edges_Start`), Capturing to Ready (a capture
callback or `DHT22_Edges_Service`), Capturing to Idle (`DHT22_Edges_Service`),
Ready to Idle (`DHT22_Edges_Read`). -/
theorem state_changes_follow_table (s : Session) (c : Call) :
    (s.WellFormed → ∃ s2, c.apply s = some s2) ∧
    (∀ s2, c.apply s = some s2 →
      s2.st = s.st ∨
      (s.st = S_IDLE ∧ s2.st = S_CAPTURING ∧ ∃ tick, c = Call.start tick) ∨
      (s.st = S_CAPTURING ∧ s2.st = S_READY ∧
        ((∃ a b cap p, c = Call.callback a b cap p) ∨
          ∃ tick counter, c = Call.service tick counter)) ∨
      (s.st = S_CAPTURING ∧ s2.st = S_IDLE ∧ ∃ tick counter, c = Call.service tick counter) ∨
      (s.st = S_READY ∧ s2.st = S_IDLE ∧ ∃ tC rh, c = Call.read tC rh)) := by
  constructor
  · intro hs
    cases c with
    | init => exact ⟨_, rfl⟩
    | start tick => exact ⟨_, rfl⟩
    | service tick counter => exact ⟨_, rfl⟩
    | callback a b cap p => exact ⟨_, rfl⟩
    | read tC rh =>
      obtain ⟨r, hr⟩ := read_returns s tC rh hs
      exact ⟨r.session, by simp [Call.apply, hr]⟩
  · intro s2 h
    cases c with
    | init =>
      simp only [Call.apply, DHT22_Edges_Init, Option.some.injEq] at h
      left; rw [← h]
    | start tick =>
      simp only [Call.apply, Option.some.injEq] at h
      subst h
      unfold DHT22_Edges_Start
      by_cases h1 : s.st ≠ S_IDLE
      · rw [if_pos h1]; left; rfl
      · rw [if_neg h1]
        right; left
        exact ⟨by simpa using h1, rfl, tick, rfl⟩
    | service tick counter =>
      simp only [Call.apply, Option.some.injEq] at h
      subst h
      by_cases h1 : s.st ≠ S_CAPTURING
      · unfold DHT22_Edges_Service; rw [if_pos h1]; left; rfl
      have hc : s.st = S_CAPTURING := by simpa using h1
      unfold DHT22_Edges_Service
      simp only []
      split_ifs
      · right; right; right; left
        exact ⟨hc, rfl, tick, counter, rfl⟩
      · right; right; left
        exact ⟨hc, rfl, Or.inr ⟨tick, counter, rfl⟩⟩
      · right; right; left
        exact ⟨hc, rfl, Or.inr ⟨tick, counter, rfl⟩⟩
      · left; rfl
      · left; rfl
    | callback a b cap p =>
      simp only [Call.apply, Option.some.injEq] at h
      subst h
      by_cases h1 : s.st ≠ S_CAPTURING
      · unfold DHT22_Edges_TIM_IC_Callback; rw [if_pos h1]; left; rfl
      have hc : s.st = S_CAPTURING := by simpa using h1
      unfold DHT22_Edges_TIM_IC_Callback
      simp only []
      split_ifs
      all_goals first
        | (left; rfl)
        | (right; right; left; exact ⟨hc, rfl, Or.inl ⟨a, b, cap, p, rfl⟩⟩)
    | read tC rh =>
      simp only [Call.apply, Option.map_eq_some'] at h
      obtain ⟨r, hr, hrs⟩ := h
      subst hrs
      by_cases h1 : s.st = S_CAPTURING
      · unfold DHT22_Edges_Read at hr
        rw [if_pos h1] at hr
        simp only [Option.some.injEq] at hr
        left; rw [← hr]
      by_cases h2 : s.st = S_IDLE
      · unfold DHT22_Edges_Read at hr
        rw [if_neg h1, if_pos h2] at hr
        simp only [Option.some.injEq] at hr
        left; rw [← hr]
      have h3 : s.st = S_READY := by
        cases hh : s.st <;> simp_all
      obtain ⟨d, _, hrd⟩ := read_ready_result s tC rh r h3 hr
      right; right; right; right
      rw [hrd]
      exact ⟨h3, rfl, tC, rh, rfl⟩

/-- Witness for C12: a capture callback on the sample capturing session keeps the
state. -/
theorem state_changes_follow_table_witness :
    ∃ s2, (Call.callback true true 180 false).apply sampleCapturing = some s2 :=
  (state_changes_follow_table sampleCapturing (Call.callback true true 180 false)).1
    (by decide)

/-! ### Busy reads, calls in the wrong state, silence (C13, C14, C15) -/

/-- C13: on a Capturing session `DHT22_Edges_Read` returns `DHT22_BUSY` with the
session and both outputs unchanged, whatever the buffer holds, and whenever
`DHT22_Edges_Read` returns `DHT22_BUSY` the state is Capturing. -/
theorem read_busy_iff_capturing (s : Session) (tC rh : Int) :
    (s.st = S_CAPTURING → DHT22_Edges_Read s tC rh = some ⟨DHT22_BUSY, s, tC, rh⟩) ∧
    (∀ r, DHT22_Edges_Read s tC rh = some r → r.status = DHT22_BUSY → s.st = S_CAPTURING) := by
  constructor
  · intro h
    unfold DHT22_Edges_Read
    rw [if_pos h]
  · intro r hr hb
    by_contra h1
    by_cases h2 : s.st = S_IDLE
    · unfold DHT22_Edges_Read at hr
      rw [if_neg h1, if_pos h2] at hr
      simp only [Option.some.injEq] at hr
      rw [← hr] at hb
      cases hb
    · have h3 : s.st = S_READY := by
        cases hh : s.st <;> simp_all
      obtain ⟨d, hd, hrd⟩ := read_ready_result s tC rh r h3 hr
      rw [hrd] at hb
      rcases decode_frame_status s tC rh d hd with h4 | h4 | h4 <;>
        · have hb2 : d.status = DHT22_BUSY := hb
          rw [h4] at hb2
          cases hb2

/-- Witness for C13 at the sample capturing session. -/
theorem read_busy_iff_capturing_witness :
    DHT22_Edges_Read sampleCapturing 3 4 = some ⟨DHT22_BUSY, sampleCapturing, 3, 4⟩ :=
  (read_busy_iff_capturing sampleCapturing 3 4).1 (by decide)

/-- No call other than a capture callback on a Capturing session raises the edge
count, and `DHT22_Edges_Service` never changes the buffer. -/
theorem service_keeps_buffer (s : Session) (tick counter : Nat) :
    (DHT22_Edges_Service s tick counter).edge_t = s.edge_t ∧
    (DHT22_Edges_Service s tick counter).edge_level = s.edge_level ∧
    (DHT22_Edges_Service s tick counter).edgeCount = s.edgeCount := by
  unfold DHT22_Edges_Service
  simp only []
  split_ifs <;> exact ⟨rfl, rfl, rfl⟩

theorem read_keeps_buffer (s : Session) (tC rh : Int) (r : ReadResult)
    (h : DHT22_Edges_Read s tC rh = some r) :
    r.session.edge_t = s.edge_t ∧ r.session.edge_level = s.edge_level ∧
      r.session.edgeCount = s.edgeCount := by
  by_cases h1 : s.st = S_CAPTURING
  · unfold DHT22_Edges_Read at h
    rw [if_pos h1] at h
    simp only [Option.some.injEq] at h
    rw [← h]; exact ⟨rfl, rfl, rfl⟩
  by_cases h2 : s.st = S_IDLE
  · unfold DHT22_Edges_Read at h
    rw [if_neg h1, if_pos h2] at h
    simp only [Option.some.injEq] at h
    rw [← h]; exact ⟨rfl, rfl, rfl⟩
  have h3 : s.st = S_READY := by
    cases hh : s.st <;> simp_all
  obtain ⟨d, _, hrd⟩ := read_ready_result s tC rh r h3 h
  rw [hrd]; exact ⟨rfl, rfl, rfl⟩

/-- C14: `DHT22_Edges_Start` on a session that is not Idle, and
`DHT22_Edges_Service` and the capture callback on a session that is not
Capturing, return the session unchanged; a call that raises the edge count was
made on a Capturing session; and no call on a Ready session changes the edge
arrays or the edge count. -/
theorem wrong_state_calls_do_nothing (s : Session) :
    (s.st ≠ S_IDLE → ∀ tick, DHT22_Edges_Start s tick = s) ∧
    (s.st ≠ S_CAPTURING → ∀ tick counter, DHT22_Edges_Service s tick counter = s) ∧
    (s.st ≠ S_CAPTURING → ∀ a b cap p, DHT22_Edges_TIM_IC_Callback s a b cap p = s) ∧
    (∀ (c : Call) (s2 : Session), c.apply s = some s2 → s.edgeCount < s2.edgeCount →
      s.st = S_CAPTURING) ∧
    (s.st = S_READY → ∀ (c : Call) (s2 : Session), c.apply s = some s2 →
      s2.edge_t = s.edge_t ∧ s2.edge_level = s.edge_level ∧ s2.edgeCount = s.edgeCount) := by
  have hstart : s.st ≠ S_IDLE → ∀ tick, DHT22_Edges_Start s tick = s := by
    intro h tick; unfold DHT22_Edges_Start; rw [if_pos h]
  have hserv : s.st ≠ S_CAPTURING → ∀ tick counter, DHT22_Edges_Service s tick counter = s := by
    intro h tick counter; unfold DHT22_Edges_Service; rw [if_pos h]
  have hcb : s.st ≠ S_CAPTURING → ∀ a b cap p, DHT22_Edges_TIM_IC_Callback s a b cap p = s := by
    intro h a b cap p; unfold DHT22_Edges_TIM_IC_Callback; rw [if_pos h]
  refine ⟨hstart, hserv, hcb, ?_, ?_⟩
  · intro c s2 h hlt
    by_contra hne
    cases c with
    | init =>
      simp only [Call.apply, DHT22_Edges_Init, Option.some.injEq] at h
      rw [← h] at hlt; omega
    | start tick =>
      simp only [Call.apply, Option.some.injEq] at h
      by_cases h1 : s.st ≠ S_IDLE
      · rw [hstart h1 tick] at h; rw [← h] at hlt; omega
      · unfold DHT22_Edges_Start at h
        rw [if_neg h1] at h
        rw [← h] at hlt
        simp at hlt
    | service tick counter =>
      simp only [Call.apply, Option.some.injEq] at h
      rw [← h, (service_keeps_buffer s tick counter).2.2] at hlt
      omega
    | callback a b cap p =>
      simp only [Call.apply, Option.some.injEq] at h
      rw [hcb hne a b cap p] at h
      rw [← h] at hlt; omega
    | read tC rh =>
      simp only [Call.apply, Option.map_eq_some'] at h
      obtain ⟨r, hr, hrs⟩ := h
      rw [← hrs, (read_keeps_buffer s tC rh r hr).2.2] at hlt
      omega
  · intro hst c s2 h
    have hni : s.st ≠ S_IDLE := by rw [hst]; decide
    have hnc : s.st ≠ S_CAPTURING := by rw [hst]; decide
    cases c with
    | init =>
      simp only [Call.apply, DHT22_Edges_Init, Option.some.injEq] at h
      rw [← h]; exact ⟨rfl, rfl, rfl⟩
    | start tick =>
      simp only [Call.apply, Option.some.injEq] at h
      rw [hstart hni tick] at h
      rw [← h]; exact ⟨rfl, rfl, rfl⟩
    | service tick counter =>
      simp only [Call.apply, Option.some.injEq] at h
      rw [hserv hnc tick counter] at h
      rw [← h]; exact ⟨rfl, rfl, rfl⟩
    | callback a b cap p =>
      simp only [Call.apply, Option.some.injEq] at h
      rw [hcb hnc a b cap p] at h
      rw [← h]; exact ⟨rfl, rfl, rfl⟩
    | read tC rh =>
      simp only [Call.apply, Option.map_eq_some'] at h
      obtain ⟨r, hr, hrs⟩ := h
      rw [← hrs]
      exact read_keeps_buffer s tC rh r hr

/-- Witness for C14: a capture callback on the Ready sample frame changes
nothing. -/
theorem wrong_state_calls_do_nothing_witness :
    ∀ a b cap p, DHT22_Edges_TIM_IC_Callback sampleFrame a b cap p = sampleFrame :=
  (wrong_state_calls_do_nothing sampleFrame).2.2.1 (by decide)

theorem u16_wrap (L d : Nat) (hd : d < 65536) :
    u16 ((((L + d) % 65536 : Nat) : Int) - (L : Int)) = d := by
  unfold u16
  omega

/-- C15: on a reachable Capturing session with at least one recorded edge and no
overall timeout, if the counter reads `(L + d) mod 2^16` where `L` is the
last-edge timestamp and `d < 65536` is the elapsed interval, the silence that
`DHT22_Edges_Service` computes is `d`, and the state becomes Ready exactly when
`d > 500`. -/
theorem silence_is_wraparound_safe (cs : List Call) (s : Session) (tick counter d : Nat)
    (hreach : runCalls Session.initial cs = some s) (hst : s.st = S_CAPTURING)
    (hel : u32 ((tick : Int) - (s.start_ms : Int)) ≤ TRANS_TIMEOUT_MS)
    (hedge : 0 < s.edgeCount) (hd : d < 65536)
    (hc : counter = (s.lastEdgeCounter + d) % 65536) :
    u16 ((u16 (counter : Int) : Nat) - (s.lastEdgeCounter : Int)) = d ∧
    ((DHT22_Edges_Service s tick counter).st = S_READY ↔ SILENCE_US < d) := by
  obtain ⟨s2, hs2, hinv⟩ := runCalls_inv cs Session.initial inv_initial
  rw [hreach] at hs2
  simp only [Option.some.injEq] at hs2
  subst hs2
  obtain ⟨_, hcap, hflag⟩ := hinv
  have hlt := hcap hst
  have hsil : u16 ((u16 (counter : Int) : Nat) - (s.lastEdgeCounter : Int)) = d := by
    rw [u16_sub_u16, hc]
    exact u16_wrap s.lastEdgeCounter d hd
  refine ⟨hsil, ?_⟩
  unfold DHT22_Edges_Service
  rw [if_neg (by rw [hst]; decide), if_neg (by omega), if_neg (by omega), if_pos (hflag.2 hedge)]
  simp only [hsil]
  by_cases h5 : d > SILENCE_US
  · rw [if_pos h5]
    exact ⟨fun _ => h5, fun _ => rfl⟩
  · rw [if_neg h5]
    constructor
    · intro h; rw [hst] at h; cases h
    · intro h; exact absurd h h5

/-- Witness for C15: last edge at counter value 65500, counter read as 564 after
it wrapped, which is 600 counter units later. -/
theorem silence_is_wraparound_safe_witness :
    u16 ((u16 ((564 : Nat) : Int) : Nat) - (sampleCapturingLate.lastEdgeCounter : Int)) = 600 ∧
    ((DHT22_Edges_Service sampleCapturingLate 1010 564).st = S_READY ↔ SILENCE_US < 600) :=
  silence_is_wraparound_safe [Call.start 1000, Call.callback true true 65500 true]
    sampleCapturingLate 1010 564 600 (by decide) (by decide) (by decide) (by decide)
    (by decide) (by decide)

/-- C17: on a Ready session with a well-formed buffer `DHT22_Edges_Read` returns
and the session it leaves differs from the original in the state alone, which
is Idle: edge timestamps, edge levels, edge count, last-edge timestamp, new-edge
flag and start time are unchanged. -/
theorem read_ready_only_changes_state (s : Session) (tC rh : Int) (hst : s.st = S_READY)
    (hs : s.WellFormed) :
    ∃ r, DHT22_Edges_Read s tC rh = some r ∧
      r.session = { s with st := S_IDLE } ∧
      r.session.st = S_IDLE ∧
      r.session.edge_t = s.edge_t ∧ r.session.edge_level = s.edge_level ∧
      r.session.edgeCount = s.edgeCount ∧ r.session.lastEdgeCounter = s.lastEdgeCounter ∧
      r.session.haveNewEdge = s.haveNewEdge ∧ r.session.start_ms = s.start_ms := by
  obtain ⟨d, hd, _⟩ := decode_frame_total s tC rh hs
  refine ⟨⟨d.status, { s with st := S_IDLE }, d.tC, d.rh⟩, ?_, rfl, rfl, rfl, rfl, rfl, rfl, rfl, rfl⟩
  unfold DHT22_Edges_Read
  rw [hst, hd]
  rfl

set_option maxRecDepth 100000 in
/-- Witness for C17 at the sample frame. -/
theorem read_ready_only_changes_state_witness :
    ∃ r, DHT22_Edges_Read sampleFrame 0 0 = some r ∧
      r.session = { sampleFrame with st := S_IDLE } ∧
      r.session.st = S_IDLE ∧
      r.session.edge_t = sampleFrame.edge_t ∧ r.session.edge_level = sampleFrame.edge_level ∧
      r.session.edgeCount = sampleFrame.edgeCount ∧
      r.session.lastEdgeCounter = sampleFrame.lastEdgeCounter ∧
      r.session.haveNewEdge = sampleFrame.haveNewEdge ∧
      r.session.start_ms = sampleFrame.start_ms :=
  read_ready_only_changes_state sampleFrame 0 0 (by decide) (by decide)

/-! ### Bounds of the pulse loop; totality, short captures, outputs (C16, C19, C20) -/

theorem nextFalling_ge (lv : List Nat) (n : Nat) :
    ∀ (fuel j j2 : Nat), nextFalling lv n fuel j = some j2 → j ≤ j2 := by
  intro fuel
  induction fuel with
  | zero => intro j j2 h; simp [nextFalling] at h
  | succ fuel ih =>
    intro j j2 h
    unfold nextFalling at h
    by_cases hjn : j < n
    · rw [if_pos hjn] at h
      cases hl : lv[j]? with
      | none => rw [hl] at h; simp at h
      | some l =>
        rw [hl] at h
        simp only [Option.bind_eq_bind, Option.some_bind] at h
        by_cases hl0 : l ≠ 0
        · rw [if_pos hl0] at h
          have := ih (j + 1) j2 h
          omega
        · rw [if_neg hl0] at h
          simp only [Option.some.injEq] at h
          omega
    · rw [if_neg hjn] at h
      simp only [Option.some.injEq] at h
      omega

/-- Each reconstructed pulse uses up at least two records, and at most 50 pulses
are stored. -/
theorem pulseLoop_bounds (t lv : List Nat) (n : Nat) :
    ∀ (fuel i : Nat) (hi out : List Nat), pulseLoop t lv n fuel i hi = some out → i ≤ n →
      2 * out.length + i ≤ 2 * hi.length + n ∧ (hi.length ≤ 50 → out.length ≤ 50) := by
  intro fuel
  induction fuel with
  | zero => intro i hi out h _; simp [pulseLoop] at h
  | succ fuel ih =>
    intro i hi out h hin
    unfold pulseLoop at h
    by_cases hc : (i : Int) < (n : Int) - 1 ∧ hi.length < 50
    · rw [if_pos hc] at h
      cases hl : lv[i]? with
      | none => rw [hl] at h; simp at h
      | some l =>
        rw [hl] at h
        simp only [Option.bind_eq_bind, Option.some_bind] at h
        by_cases hl1 : l = 1
        · rw [if_pos hl1] at h
          cases htr : t[i]? with
          | none => rw [htr] at h; simp at h
          | some t_r =>
            rw [htr] at h
            simp only [Option.some_bind] at h
            cases hj : nextFalling lv n (n + 1) (i + 1) with
            | none => rw [hj] at h; simp at h
            | some j =>
              rw [hj] at h
              simp only [Option.some_bind] at h
              have hge := nextFalling_ge lv n _ _ _ hj
              by_cases hjn : j ≥ n
              · rw [if_pos hjn] at h
                simp only [Option.some.injEq] at h
                subst h
                exact ⟨by omega, fun hh => hh⟩
              · rw [if_neg hjn] at h
                cases htf : t[j]? with
                | none => rw [htf] at h; simp at h
                | some t_f =>
                  rw [htf] at h
                  simp only [Option.some_bind] at h
                  obtain ⟨h1, h2⟩ := ih (j + 1) _ out h (by omega)
                  simp only [List.length_append, List.length_singleton] at h1 h2
                  exact ⟨by omega, fun _ => h2 (by omega)⟩
        · rw [if_neg hl1] at h
          obtain ⟨h1, h2⟩ := ih (i + 1) hi out h (by omega)
          exact ⟨by omega, h2⟩
    · rw [if_neg hc] at h
      simp only [Option.some.injEq] at h
      subst h
      exact ⟨by omega, fun hh => hh⟩

theorem nextFalling_congr (lv lv2 : List Nat) (n : Nat)
    (h : ∀ j, j < n → lv[j]? = lv2[j]?) :
    ∀ (fuel j : Nat), nextFalling lv n fuel j = nextFalling lv2 n fuel j := by
  intro fuel
  induction fuel with
  | zero => intro j; rfl
  | succ fuel ih =>
    intro j
    unfold nextFalling
    by_cases hjn : j < n
    · rw [if_pos hjn, if_pos hjn, h j hjn]
      simp only [ih]
    · rw [if_neg hjn, if_neg hjn]

/-- The pulse loop reads the two edge arrays below the edge count only. -/
theorem pulseLoop_congr (t t2 lv lv2 : List Nat) (n : Nat)
    (ht : ∀ j, j < n → t[j]? = t2[j]?) (hlv : ∀ j, j < n → lv[j]? = lv2[j]?) :
    ∀ (fuel i : Nat) (hi : List Nat),
      pulseLoop t lv n fuel i hi = pulseLoop t2 lv2 n fuel i hi := by
  intro fuel
  induction fuel with
  | zero => intro i hi; rfl
  | succ fuel ih =>
    intro i hi
    unfold pulseLoop
    by_cases hc : (i : Int) < (n : Int) - 1 ∧ hi.length < 50
    · rw [if_pos hc, if_pos hc, hlv i (by omega), ht i (by omega),
        nextFalling_congr lv lv2 n hlv]
      cases lv2[i]? with
      | none => rfl
      | some l =>
        simp only [Option.bind_eq_bind, Option.some_bind]
        by_cases hl1 : l = 1
        · rw [if_pos hl1, if_pos hl1]
          cases t2[i]? with
          | none => rfl
          | some t_r =>
            simp only [Option.some_bind]
            cases nextFalling lv2 n (n + 1) (i + 1) with
            | none => rfl
            | some j =>
              simp only [Option.some_bind]
              by_cases hjn : j ≥ n
              · rw [if_pos hjn, if_pos hjn]
              · rw [if_neg hjn, if_neg hjn, ht j (by omega)]
                simp only [ih]
        · rw [if_neg hl1, if_neg hl1, ih]
    · rw [if_neg hc, if_neg hc]

/-- The decoder uses the session through its high pulses only. -/
theorem decode_frame_congr (s s2 : Session) (tC rh : Int) (h : highPulses s = highPulses s2) :
    decode_frame s tC rh = decode_frame s2 tC rh := by
  unfold decode_frame
  rw [h]

/-- C16: on every well-formed session (any timestamps and levels, edge count 0 to
90) the pulse loop returns at most 50 pulses and `decode_frame` returns a
result whose status is `DHT22_OK`, `DHT22_ERROR_CHECKSUM` or `DHT22_ERROR_FRAME`,
hence neither `DHT22_BUSY` nor `DHT22_ERROR_TIMEOUT`; the same result is returned
when both edge arrays are cut down to their first `edgeCount` entries, so no
entry at or above the edge count is read. -/
theorem decode_frame_is_total (s : Session) (tC rh : Int) (hs : s.WellFormed) :
    ∃ hi r, highPulses s = some hi ∧ hi.length ≤ 50 ∧
      decode_frame s tC rh = some r ∧
      (r.status = DHT22_OK ∨ r.status = DHT22_ERROR_CHECKSUM ∨ r.status = DHT22_ERROR_FRAME) ∧
      r.status ≠ DHT22_BUSY ∧ r.status ≠ DHT22_ERROR_TIMEOUT ∧
      decode_frame { s with edge_t := s.edge_t.take s.edgeCount
                            edge_level := s.edge_level.take s.edgeCount } tC rh = some r := by
  obtain ⟨hi, hp⟩ := highPulses_total s hs
  obtain ⟨r, hr, hstat⟩ := decode_frame_total s tC rh hs
  have hlen : hi.length ≤ 50 :=
    (pulseLoop_bounds s.edge_t s.edge_level s.edgeCount _ 0 [] hi hp (Nat.zero_le _)).2
      (by simp)
  have hcongr : highPulses { s with edge_t := s.edge_t.take s.edgeCount
                                    edge_level := s.edge_level.take s.edgeCount } =
      highPulses s := by
    unfold highPulses
    exact pulseLoop_congr _ _ _ _ s.edgeCount
      (fun j hj => List.getElem?_take_of_lt hj) (fun j hj => List.getElem?_take_of_lt hj) _ 0 []
  refine ⟨hi, r, hp, hlen, hr, hstat, ?_, ?_, ?_⟩
  · rcases hstat with h | h | h <;> rw [h] <;> decide
  · rcases hstat with h | h | h <;> rw [h] <;> decide
  · rw [decode_frame_congr _ s tC rh hcongr]; exact hr

set_option maxRecDepth 100000 in
/-- Witness for C16 at the sample frame. -/
theorem decode_frame_is_total_witness :
    ∃ hi r, highPulses sampleFrame = some hi ∧ hi.length ≤ 50 ∧
      decode_frame sampleFrame 0 0 = some r ∧
      (r.status = DHT22_OK ∨ r.status = DHT22_ERROR_CHECKSUM ∨ r.status = DHT22_ERROR_FRAME) ∧
      r.status ≠ DHT22_BUSY ∧ r.status ≠ DHT22_ERROR_TIMEOUT ∧
      decode_frame { sampleFrame with edge_t := sampleFrame.edge_t.take sampleFrame.edgeCount
                                      edge_level :=
                                        sampleFrame.edge_level.take sampleFrame.edgeCount }
        0 0 = some r :=
  decode_frame_is_total sampleFrame 0 0 (by decide)

/-- C19: on a Ready session with a well-formed buffer and fewer than 82 recorded
edges, whatever the timestamps and levels, `DHT22_Edges_Read` returns
`DHT22_ERROR_FRAME`, leaves both outputs unchanged and sets the state to Idle. -/
theorem short_capture_is_frame_error (s : Session) (tC rh : Int) (hst : s.st = S_READY)
    (hs : s.WellFormed) (hn : s.edgeCount < 82) :
    DHT22_Edges_Read s tC rh =
      some ⟨DHT22_ERROR_FRAME, { s with st := S_IDLE }, tC, rh⟩ := by
  obtain ⟨hi, hp⟩ := highPulses_total s hs
  have hb := (pulseLoop_bounds s.edge_t s.edge_level s.edgeCount _ 0 [] hi hp (Nat.zero_le _)).1
  simp only [List.length_nil] at hb
  have hd := decode_frame_of_few s hi tC rh hp (by omega)
  unfold DHT22_Edges_Read
  rw [hst, hd]
  rfl

set_option maxRecDepth 100000 in
/-- Witness for C19: the truncated sample frame holds 81 records. -/
theorem short_capture_is_frame_error_witness :
    DHT22_Edges_Read sampleFrameShort 7 9 =
      some ⟨DHT22_ERROR_FRAME, { sampleFrameShort with st := S_IDLE }, 7, 9⟩ :=
  short_capture_is_frame_error sampleFrameShort 7 9 (by decide) (by decide) (by decide)

/-- C20: on a well-formed session `DHT22_Edges_Read` returns a result; if its
status is `DHT22_OK` the same result, outputs included, is returned for every
prior content of the two outputs (both were written), and if its status is not
`DHT22_OK` both outputs hold what they held before the call. -/
theorem read_writes_outputs_iff_ok (s : Session) (tC rh : Int) (hs : s.WellFormed) :
    ∃ r, DHT22_Edges_Read s tC rh = some r ∧
      (r.status = DHT22_OK → ∀ tC2 rh2 : Int, DHT22_Edges_Read s tC2 rh2 = some r) ∧
      (r.status ≠ DHT22_OK → r.tC = tC ∧ r.rh = rh) := by
  by_cases h1 : s.st = S_CAPTURING
  · refine ⟨⟨DHT22_BUSY, s, tC, rh⟩, by unfold DHT22_Edges_Read; rw [if_pos h1], ?_, ?_⟩
    · intro h; cases h
    · intro _; exact ⟨rfl, rfl⟩
  by_cases h2 : s.st = S_IDLE
  · refine ⟨⟨DHT22_ERROR_TIMEOUT, s, tC, rh⟩,
      by unfold DHT22_Edges_Read; rw [if_neg h1, if_pos h2], ?_, ?_⟩
    · intro h; cases h
    · intro _; exact ⟨rfl, rfl⟩
  have hread : ∀ (a b : Int) (d : DecodeResult), decode_frame s a b = some d →
      DHT22_Edges_Read s a b = some ⟨d.status, { s with st := S_IDLE }, d.tC, d.rh⟩ := by
    intro a b d hd
    unfold DHT22_Edges_Read
    rw [if_neg h1, if_neg h2, hd]
    rfl
  obtain ⟨hi, hp⟩ := highPulses_total s hs
  by_cases hlen : hi.length < 41
  · refine ⟨_, hread tC rh _ (decode_frame_of_few s hi tC rh hp hlen), ?_, ?_⟩
    · intro h; cases h
    · intro _; exact ⟨rfl, rfl⟩
  have hdec := fun a b => decode_frame_of_pulses s hi a b hp (by omega)
  by_cases hsum : (byteAt hi 0 + byteAt hi 1 + byteAt hi 2 + byteAt hi 3) % 256 = byteAt hi 4
  · have hval := fun a b => checkAndConvert_of_sum (byteAt hi 0) (byteAt hi 1) (byteAt hi 2)
      (byteAt hi 3) (byteAt hi 4) a b (byteAt_lt hi 0) (byteAt_lt hi 1) (byteAt_lt hi 2)
      (byteAt_lt hi 3) hsum
    refine ⟨_, hread tC rh _ (hdec tC rh), ?_, ?_⟩
    · intro _ tC2 rh2
      rw [hread tC2 rh2 _ (hdec tC2 rh2), hval tC rh, hval tC2 rh2]
    · intro h
      rw [hval tC rh] at h
      exact absurd rfl h
  · have hval := fun a b => checkAndConvert_of_mismatch (byteAt hi 0) (byteAt hi 1) (byteAt hi 2)
      (byteAt hi 3) (byteAt hi 4) a b hsum
    refine ⟨_, hread tC rh _ (hdec tC rh), ?_, ?_⟩
    · intro h
      rw [hval tC rh] at h
      cases h
    · intro _
      rw [hval tC rh]
      exact ⟨rfl, rfl⟩

set_option maxRecDepth 100000 in
/-- Witness for C20 at the sample frame with a flipped bit, whose checksum
fails. -/
theorem read_writes_outputs_iff_ok_witness :
    ∃ r, DHT22_Edges_Read sampleFrameFlipped 7 9 = some r ∧
      (r.status = DHT22_OK →
        ∀ tC2 rh2 : Int, DHT22_Edges_Read sampleFrameFlipped tC2 rh2 = some r) ∧
      (r.status ≠ DHT22_OK → r.tC = 7 ∧ r.rh = 9) :=
  read_writes_outputs_iff_ok sampleFrameFlipped 7 9 (by decide)

/-! ### The pulse loop against the reference list (C18) -/

theorem holds_lookup (s : Session) (recs : List (Nat × Bool)) (h : s.Holds recs) (i : Nat)
    (hi : i < recs.length) :
    ∃ tt b, recs.drop i = (tt, b) :: recs.drop (i + 1) ∧ s.edge_t[i]? = some tt ∧
      s.edge_level[i]? = some (if b then 1 else 0) := by
  obtain ⟨hn, ht, hl⟩ := h
  refine ⟨(recs[i]).1, (recs[i]).2, List.drop_eq_getElem_cons hi, ?_, ?_⟩
  · rw [← List.getElem?_take_of_lt (show i < s.edgeCount by omega), ht, List.getElem?_map,
      List.getElem?_eq_getElem hi]
    rfl
  · rw [← List.getElem?_take_of_lt (show i < s.edgeCount by omega), hl, List.getElem?_map,
      List.getElem?_eq_getElem hi]
    rfl

/-- The inner loop finds the falling record that the reference scan finds. -/
theorem nextFalling_reference (s : Session) (recs : List (Nat × Bool)) (h : s.Holds recs)
    (t_r : Nat) :
    ∀ (fuel j : Nat), j ≤ recs.length → recs.length + 1 ≤ fuel + j →
      ∃ j2, nextFalling s.edge_level s.edgeCount fuel j = some j2 ∧ j ≤ j2 ∧
        j2 ≤ recs.length ∧
        (recs.length ≤ j2 → referenceWidths (some t_r) (recs.drop j) = []) ∧
        (j2 < recs.length → ∃ t_f, s.edge_t[j2]? = some t_f ∧
          referenceWidths (some t_r) (recs.drop j) =
            u16 ((t_f : Int) - (t_r : Int)) :: referenceWidths none (recs.drop (j2 + 1))) := by
  have hn := h.1
  intro fuel
  induction fuel with
  | zero => intro j hj hf; omega
  | succ fuel ih =>
    intro j hj hf
    unfold nextFalling
    by_cases hjn : j < recs.length
    · obtain ⟨tt, b, hdrop, htt, hlv⟩ := holds_lookup s recs h j hjn
      rw [if_pos (by omega), hlv]
      simp only [Option.bind_eq_bind, Option.some_bind]
      cases b with
      | true =>
        simp only [if_true]
        rw [if_pos (by decide)]
        obtain ⟨j2, h1, h0, h2, h3, h4⟩ := ih (j + 1) (by omega) (by omega)
        refine ⟨j2, h1, by omega, h2, ?_, ?_⟩
        · intro hle; rw [hdrop]; exact h3 hle
        · intro hlt; rw [hdrop]; exact h4 hlt
      | false =>
        simp only [Bool.false_eq_true, if_false]
        rw [if_neg (by decide)]
        refine ⟨j, rfl, le_refl _, hj, fun hle => by omega, fun _ => ⟨tt, htt, ?_⟩⟩
        rw [hdrop]
        rfl
    · rw [if_neg (by omega)]
      refine ⟨j, rfl, le_refl _, hj, fun _ => ?_, fun hlt => by omega⟩
      rw [List.drop_eq_nil_of_le (by omega)]
      rfl

theorem referenceWidths_short (l : List (Nat × Bool)) (h : l.length ≤ 1) :
    referenceWidths none l = [] := by
  match l, h with
  | [], _ => rfl
  | [(_, false)], _ => rfl
  | [(_, true)], _ => rfl

/-- The outer loop builds the first 50 entries of the reference list. -/
theorem pulseLoop_reference (s : Session) (recs : List (Nat × Bool)) (h : s.Holds recs) :
    ∀ (fuel i : Nat) (hi : List Nat), i ≤ recs.length → recs.length + 1 ≤ fuel + i →
      hi.length ≤ 50 →
      pulseLoop s.edge_t s.edge_level s.edgeCount fuel i hi =
        some ((hi ++ referenceWidths none (recs.drop i)).take 50) := by
  have hn := h.1
  intro fuel
  induction fuel with
  | zero => intro i hi hin hf; omega
  | succ fuel ih =>
    intro i hi hin hf hlen
    unfold pulseLoop
    by_cases hc : (i : Int) < (s.edgeCount : Int) - 1 ∧ hi.length < 50
    · rw [if_pos hc]
      have hi1 : i + 1 < recs.length := by omega
      obtain ⟨tt, b, hdrop, htt, hlv⟩ := holds_lookup s recs h i (by omega)
      rw [hlv]
      simp only [Option.bind_eq_bind, Option.some_bind]
      cases b with
      | true =>
        simp only [if_true]
        rw [htt]
        simp only [Option.some_bind]
        obtain ⟨j2, h1, h0, h2, h3, h4⟩ :=
          nextFalling_reference s recs h tt (s.edgeCount + 1) (i + 1) (by omega) (by omega)
        rw [h1]
        simp only [Option.some_bind]
        have hstart : referenceWidths none (recs.drop i) =
            referenceWidths (some tt) (recs.drop (i + 1)) := by rw [hdrop]; rfl
        by_cases hjn : j2 ≥ s.edgeCount
        · rw [if_pos hjn, hstart, h3 (by omega), List.append_nil, List.take_of_length_le hlen]
        · rw [if_neg hjn]
          obtain ⟨t_f, htf, href⟩ := h4 (by omega)
          rw [htf]
          simp only [Option.some_bind]
          rw [ih (j2 + 1) _ (by omega) (by omega) (by simp; omega), hstart, href]
          simp
      | false =>
        simp only [Bool.false_eq_true, if_false]
        rw [if_neg (by decide), ih (i + 1) hi (by omega) (by omega) hlen, hdrop]
        rfl
    · rw [if_neg hc]
      by_cases hfull : hi.length < 50
      · have : (recs.drop i).length ≤ 1 := by rw [List.length_drop]; omega
        rw [referenceWidths_short _ this, List.append_nil, List.take_of_length_le hlen]
      · rw [List.take_append_of_le_length (by omega), List.take_of_length_le hlen]

theorem adjacentWidths_falling (t : Nat) (rest : List (Nat × Bool)) :
    adjacentWidths ((t, false) :: rest) = adjacentWidths rest := by
  cases rest with
  | nil => rfl
  | cons r rest => simp [adjacentWidths]

theorem referenceWidths_alternating (recs : List (Nat × Bool))
    (h : List.Chain' (fun a b => a.2 ≠ b.2) recs) :
    referenceWidths none recs = adjacentWidths recs := by
  induction recs with
  | nil => rfl
  | cons r rest ih =>
    obtain ⟨t1, l1⟩ := r
    have ih2 := ih h.tail
    cases l1 with
    | false =>
      rw [adjacentWidths_falling]
      exact ih2
    | true =>
      cases rest with
      | nil => rfl
      | cons r2 rest2 =>
        obtain ⟨t2, l2⟩ := r2
        have hne : true ≠ l2 := (List.chain'_cons.1 h).1
        cases l2 with
        | true => exact absurd rfl hne
        | false =>
          rw [adjacentWidths_falling] at ih2
          show u16 ((t2 : Int) - (t1 : Int)) :: referenceWidths none rest2 = _
          simp only [adjacentWidths, if_true, List.singleton_append]
          rw [adjacentWidths_falling]
          exact congrArg _ ih2

/-- C18: when the first `edgeCount <= 90` entries of the edge arrays are the records
`recs`, the pulse list built by `decode_frame` is the first 50 entries of the
reference list `referenceWidths none recs`; when the levels of `recs` strictly
alternate it is the list of differences between each rising record and the
record immediately after it; and a rising record followed by a falling record
`w < 65536` counter units later is measured as `w`, also across a counter
wrap. -/
theorem pulses_match_reference (s : Session) (recs : List (Nat × Bool)) (h : s.Holds recs)
    (hN : recs.length ≤ MAX_EDGES) :
    highPulses s = some ((referenceWidths none recs).take 50) ∧
    (List.Chain' (fun a b => a.2 ≠ b.2) recs → highPulses s = some (adjacentWidths recs)) ∧
    (∀ t_r w : Nat, w < 65536 →
      referenceWidths none [(t_r, true), ((t_r + w) % 65536, false)] = [w]) := by
  have hmain : highPulses s = some ((referenceWidths none recs).take 50) := by
    unfold highPulses
    rw [pulseLoop_reference s recs h (s.edgeCount + 1) 0 [] (Nat.zero_le _)
      (by have := h.1; omega) (by simp)]
    simp
  refine ⟨hmain, fun halt => ?_, fun t_r w hw => ?_⟩
  · have hb := (pulseLoop_bounds s.edge_t s.edge_level s.edgeCount _ 0 [] _ hmain
      (Nat.zero_le _)).1
    simp only [List.length_nil, List.length_take] at hb
    have hn := h.1
    unfold MAX_EDGES at hN
    rw [hmain, List.take_of_length_le (by omega), referenceWidths_alternating recs halt]
  · show [u16 ((((t_r + w) % 65536 : Nat) : Int) - (t_r : Int))] = [w]
    rw [u16_wrap t_r w hw]

set_option maxRecDepth 100000 in
/-- Witness for C18: the sample frame against its 83 records. -/
theorem pulses_match_reference_witness :
    highPulses sampleFrame = some ((referenceWidths none sampleRecords).take 50) :=
  (pulses_match_reference sampleFrame sampleRecords (by decide) (by decide)).1

end DHT22
